import Mathlib

/-!
Verification development for `githooks.py`, a git pre-receive hook that
denies pushes to `refs/heads/master` when `rustfmt --check` or
`cargo test --release` fail.

The Python module is shallowly embedded as follows.

* External subprocess execution (`subprocess.run` inside
  `Utils.non_bail_exec`) is an oracle `Env.run : command → cwd → CmdResult`.
  Every subprocess invocation is recorded in an event trace, together with
  every line printed by the hook (terminal colors and the per-line splitting
  done by `Utils.cprint` are elided: a message is recorded as one event).
* `exit(code)` (reached through `Utils.bail` or the trailing `exit(1)` of
  `main`) and unhandled Python exceptions (`ValueError` from list
  destructuring, `IndexError` from out-of-range indexing) are modelled as
  the error cases of an `Except PyExit` result; both abort the run.
* Python mutates `Commit._code_basedir` in place and object identity
  matters (the last commit of a ref is materialized by the format check and
  the same object is reused by the test loop).  Each `Commit` therefore
  carries an object id `oid` allocated at construction time, and the
  materialized-directory state lives in the run state as an association
  list `St.cbd : List (Nat × String)` keyed by `oid` — `none` in Python is
  "no entry here".  `tempfile.TemporaryDirectory(prefix=hash, dir=...)`'s
  random directory-name suffix is the oracle `Env.freshSuffix` applied to
  an allocation counter.
* Python string operations (`str.split`, `str.splitlines`, `str.rstrip`,
  `str.endswith`, `str.join`) are re-implemented on `List Char` with
  structural recursion so that all definitions evaluate inside the kernel.
-/

namespace Githooks

/-! ## Python string primitives -/

/-- Python `str` whitespace for `split()` / `rstrip()` (the ASCII part,
which is all that git's output and the push protocol use). -/
def isPySpace (c : Char) : Bool :=
  c == ' ' || c == '\t' || c == '\n' || c == '\r' || c == '\x0b' || c == '\x0c'

/-- Worker for Python `str.split()` (no separator): split on runs of
whitespace, discarding empty tokens. `acc` is the token in progress. -/
def splitWsAux : List Char → List Char → List (List Char)
  | [], acc => if acc.isEmpty then [] else [acc]
  | c :: cs, acc =>
      if isPySpace c then
        if acc.isEmpty then splitWsAux cs [] else acc :: splitWsAux cs []
      else splitWsAux cs (acc ++ [c])

/-- Python `str.split()` with no argument. -/
def pySplitWs (s : String) : List String :=
  (splitWsAux s.data []).map String.mk

/-- Worker for Python `str.split(sep)` with a non-empty separator; `fuel`
dominates the length of the remaining input so the recursion is structural. -/
def splitSepAux (sep : List Char) : Nat → List Char → List Char → List (List Char)
  | 0, cs, acc => [acc ++ cs]
  | fuel + 1, cs, acc =>
      if sep.isPrefixOf cs then
        acc :: splitSepAux sep fuel (cs.drop sep.length) []
      else
        match cs with
        | [] => [acc]
        | c :: rest => splitSepAux sep fuel (rest) (acc ++ [c])

/-- Python `str.split(sep)` for a non-empty separator `sep`
(every use in the hook passes a non-empty separator). -/
def pySplitSep (sep s : String) : List String :=
  if sep.data.isEmpty then [s]
  else (splitSepAux sep.data (s.data.length + 1) s.data []).map String.mk

/-- Python `str.rstrip()` (strip trailing whitespace). -/
def pyRstrip (s : String) : String :=
  String.mk ((s.data.reverse.dropWhile isPySpace).reverse)

/-- Python `str.rstrip("\x00")` (strip trailing NUL bytes). -/
def rstripNul (s : String) : String :=
  String.mk ((s.data.reverse.dropWhile (fun c => c == '\x00')).reverse)

/-- Worker for Python `str.splitlines()` (line terminators `\r\n`, `\n`, `\r`;
no trailing empty line). -/
def splitlinesAux : List Char → List Char → List (List Char)
  | [], acc => if acc.isEmpty then [] else [acc]
  | '\r' :: '\n' :: cs, acc => acc :: splitlinesAux cs []
  | '\n' :: cs, acc => acc :: splitlinesAux cs []
  | '\r' :: cs, acc => acc :: splitlinesAux cs []
  | c :: cs, acc => splitlinesAux cs (acc ++ [c])

/-- Python `str.splitlines()`. -/
def pySplitlines (s : String) : List String :=
  (splitlinesAux s.data []).map String.mk

/-- Python `str.endswith(sfx)`. -/
def pyEndsWith (sfx s : String) : Bool :=
  List.isPrefixOf sfx.data.reverse s.data.reverse

/-- Python `sep.join(xs)`. -/
def joinWith (sep : String) : List String → String
  | [] => ""
  | [x] => x
  | x :: y :: xs => x ++ sep ++ joinWith sep (y :: xs)

/-- Python substring test `needle in hay`, on char lists. -/
def containsSubChars (needle : List Char) : List Char → Bool
  | [] => needle.isEmpty
  | c :: cs => List.isPrefixOf needle (c :: cs) || containsSubChars needle cs

/-- Python substring test `needle in hay`. -/
def containsSub (hay needle : String) : Bool :=
  containsSubChars needle.data hay.data

/-- Boolean string-prefix test (used to classify recorded commands). -/
def isPrefixStr (p s : String) : Bool :=
  List.isPrefixOf p.data s.data

/-! ## Execution model -/

/-- Result of one `subprocess.run` call (`Utils.non_bail_exec`):
exit status and captured output. -/
structure CmdResult where
  returncode : Int
  stdout : String
  stderr : String
deriving DecidableEq

/-- The hook's environment: the subprocess oracle, the random suffix that
`TemporaryDirectory` appends to a directory name for the n-th allocation,
the (absolute) `GIT_DIR`, and the lines arriving on standard input. -/
structure Env where
  run : String → Option String → CmdResult
  freshSuffix : Nat → String
  gitDir : String
  stdin : List String

/-- Observable events of a hook run: a subprocess invocation (full shell
command and working directory) or a printed message. -/
inductive Ev where
  | run (cmd : String) (cwd : Option String)
  | print (msg : String)
deriving DecidableEq

/-- How a run can abort: `exit(code)` or an unhandled Python exception. -/
inductive PyExit where
  | exit (code : Int)
  | exc (msg : String)
deriving DecidableEq

instance {α β : Type} [DecidableEq α] [DecidableEq β] : DecidableEq (Except α β) := fun a b =>
  match a, b with
  | Except.ok x, Except.ok y =>
      if h : x = y then isTrue (by rw [h]) else isFalse (by intro hc; cases hc; exact h rfl)
  | Except.error x, Except.error y =>
      if h : x = y then isTrue (by rw [h]) else isFalse (by intro hc; cases hc; exact h rfl)
  | Except.ok _, Except.error _ => isFalse (by intro hc; cases hc)
  | Except.error _, Except.ok _ => isFalse (by intro hc; cases hc)

/-- Mutable run state: the object-id allocator for `Commit`s, the
temporary-directory allocation counter, the per-commit materialized
directory (`Commit._code_basedir`, keyed by object id), and the event
trace. -/
structure St where
  nextOid : Nat
  nextTmp : Nat
  cbd : List (Nat × String)
  trace : List Ev
deriving DecidableEq

/-- Initial state of a hook process. -/
def St.init : St := ⟨0, 0, [], []⟩

/-- The hook's effect monad: state transformer with abnormal exit. -/
def M (α : Type) : Type := St → Except PyExit α × St

def M.pure {α : Type} (a : α) : M α := fun s => (Except.ok a, s)

def M.bind {α β : Type} (x : M α) (f : α → M β) : M β := fun s =>
  match x s with
  | (Except.ok a, s2) => f a s2
  | (Except.error e, s2) => (Except.error e, s2)

instance : Monad M where
  pure := M.pure
  bind := M.bind

/-- Record a printed message (stdout and stderr are not distinguished).
All state updates destructure the state first, which keeps the state terms
produced by long sequential runs linear in size (important for `decide`). -/
def tellPrint (msg : String) : M Unit :=
  fun s => match s with
  | ⟨a, b, c, t⟩ => (Except.ok (), ⟨a, b, c, t ++ [Ev.print msg]⟩)

/-- An unhandled Python exception aborts the run. -/
def raiseExc {α : Type} (msg : String) : M α :=
  fun s => (Except.error (PyExit.exc msg), s)

/-- `exit(code)`. -/
def pyExit {α : Type} (code : Int) : M α :=
  fun s => (Except.error (PyExit.exit code), s)

/-- Read the current state. -/
def getSt : M St := fun s => (Except.ok s, s)

/-- Record a commit's materialized directory (`self._code_basedir = basedir`). -/
def setCbd (k : Nat) (d : String) : M Unit :=
  fun s => match s with
  | ⟨a, b, c, t⟩ => (Except.ok (), ⟨a, b, (k, d) :: c, t⟩)

/-- Allocate an object id for a freshly constructed `Commit`. -/
def freshOid : M Nat :=
  fun s => match s with
  | ⟨a, b, c, t⟩ => (Except.ok a, ⟨a + 1, b, c, t⟩)

/-- Association-list lookup for the materialized-directory state. -/
def lookupCbd : List (Nat × String) → Nat → Option String
  | [], _ => none
  | (k2, d) :: rest, k => if k2 = k then some d else lookupCbd rest k

/-- `HOOK_BUILD_DIR = f"{os.path.abspath(os.environ['GIT_DIR'])}/hooks/pre_receive_hook_tmp_build_dir"`. -/
def hookBuildDir (env : Env) : String :=
  env.gitDir ++ "/hooks/pre_receive_hook_tmp_build_dir"

/-- `TemporaryDirectory(prefix=stem, dir=HOOK_BUILD_DIR)`: a fresh directory
name under the build dir, `stem` followed by an oracle-chosen suffix. -/
def freshTmpName (env : Env) (stem : String) : M String :=
  fun s => match s with
  | ⟨a, b, c, t⟩ =>
    (Except.ok (hookBuildDir env ++ "/" ++ stem ++ env.freshSuffix b), ⟨a, b + 1, c, t⟩)

/-! ## `Utils` -/

/-- `Utils.non_bail_exec`: run `cmd` through bash with `set -eufo pipefail`
prepended, never aborting; records the invocation. -/
def Utils.non_bail_exec (env : Env) (cmd : String) (cwd : Option String) : M CmdResult :=
  fun s => match s with
  | ⟨a, b, c, t⟩ =>
    (Except.ok (env.run ("set -eufo pipefail;" ++ cmd) cwd),
     ⟨a, b, c, t ++ [Ev.run ("set -eufo pipefail;" ++ cmd) cwd]⟩)

/-- `Utils.bail(msg, exit_code)`: print the message to stderr and exit. -/
def Utils.bail {α : Type} (msg : String) (code : Int) : M α :=
  fun s => match s with
  | ⟨a, b, c, t⟩ => (Except.error (PyExit.exit code), ⟨a, b, c, t ++ [Ev.print msg]⟩)

/-- `Utils.exec`: run the command; on nonzero exit, bail (exit status 1)
with a message holding the command and the rstripped stderr; otherwise
return the captured stdout. -/
def Utils.exec (env : Env) (cmd : String) (cwd : Option String) : M String := do
  let r ← Utils.non_bail_exec env cmd cwd
  if r.returncode ≠ 0 then
    Utils.bail ("Failed to push: cmd `" ++ cmd ++ "` failed: " ++ pyRstrip r.stderr) 1
  else
    M.pure r.stdout

/-- `Utils.check(pred, description)`: print the description, evaluate the
predicate, print OK/KO, return the result. -/
def Utils.check (pred : M Bool) (description : String) : M Bool := do
  tellPrint ("      " ++ description)
  let ok ← pred
  if ok then tellPrint "        OK" else tellPrint "        KO"
  M.pure ok

/-! ## `Commit` -/

/-- One commit of the push.  Fields mirror the Python dataclass; the
in-place mutable `_code_basedir` is replaced by the object id `oid`
indexing into `St.cbd`. -/
structure Commit where
  hash : String
  oid : Nat
  updated_files : List String
  deleted_files : List String
  new_files : List String
  datetime : String
  short_hash : String
  author : String
  subject : String
  body : String
deriving DecidableEq

/-- The `touch` command issued over a commit's updated and new files. -/
def touchCmd (c : Commit) : String :=
  "touch " ++ joinWith " " (c.updated_files ++ c.new_files)

/-- `if self.updated_files + self.new_files: Utils.non_bail_exec("touch ...", cwd=dir)` —
make sure the compiler does not ignore updated files (result ignored). -/
def touchFiles (env : Env) (c : Commit) (d : String) : M Unit := do
  if (c.updated_files ++ c.new_files).isEmpty then
    M.pure ()
  else do
    let _ ← Utils.non_bail_exec env (touchCmd c) (some d)
    M.pure ()

/-- `Commit.code_basedir`: return the memoized materialized tree, re-touching
changed files; on first use allocate a temporary directory, extract the tree
with `git archive`, memoize, and (as the Python code does through its
recursive tail call, inlined here) touch the changed files. -/
def Commit.code_basedir (env : Env) (c : Commit) : M String := do
  let st ← getSt
  match lookupCbd st.cbd c.oid with
  | some d => do
      touchFiles env c d
      M.pure d
  | none => do
      let d ← freshTmpName env c.hash
      let _ ← Utils.exec env ("git archive " ++ c.hash ++ " | tar -x -C " ++ d) none
      setCbd c.oid d
      touchFiles env c d
      M.pure d

/-- `Commit.display` (terminal colors elided). -/
def Commit.display (c : Commit) : String :=
  c.subject ++ " (" ++ c.short_hash ++ ")"

/-- `Commit.hashes_between`: `git rev-list --reverse --topo-order fst..lst`,
split into lines. -/
def Commit.hashes_between (env : Env) (fst lst : String) : M (List String) := do
  let out ← Utils.exec env ("git rev-list --reverse --topo-order " ++ fst ++ ".." ++ lst) none
  M.pure (pySplitlines out)

/-- The metadata field separator `»¦«` ("unlikely to find this str in a commit"). -/
def SEP : String := "»¦«"

/-- The metadata query command of `Commit.from_hash`. -/
def logCmd (c_hash : String) : String :=
  "git log -n1 --pretty=%ai" ++ SEP ++ "%h" ++ SEP ++ "%an" ++ SEP ++ "%s" ++ SEP ++ "%b " ++ c_hash

/-- The changed-paths query command of `Commit.from_hash`. -/
def diffTreeCmd (c_hash : String) : String :=
  "git diff-tree -z --no-commit-id --name-status -r " ++ c_hash

/-- The status/path pair loop of `Commit.from_hash`: `A` is a new file,
`D` deleted, `M` updated, anything else bails; a trailing status with no
path raises `IndexError` (`status_and_paths[i+1]` out of range). -/
def classifyStatuses : List String → Commit → M Commit
  | [], c => M.pure c
  | [_], _ => raiseExc "IndexError"
  | st :: p :: rest, c =>
      if st = "A" then
        classifyStatuses rest { c with new_files := c.new_files ++ [p] }
      else if st = "D" then
        classifyStatuses rest { c with deleted_files := c.deleted_files ++ [p] }
      else if st = "M" then
        classifyStatuses rest { c with updated_files := c.updated_files ++ [p] }
      else
        Utils.bail ("unexpected status " ++ st ++ " for file " ++ p) 1

/-- `Commit.from_hash`: one metadata query destructured into exactly five
`SEP`-separated fields (any other count raises `ValueError`), then one
`diff-tree` query classified into changed-file lists. -/
def Commit.from_hash (env : Env) (c_hash : String) : M Commit := do
  let out ← Utils.exec env (logCmd c_hash) none
  match pySplitSep SEP (pyRstrip out) with
  | [datetime, short_hash, author, subject, body] => do
      let oid ← freshOid
      let c : Commit := ⟨c_hash, oid, [], [], [], datetime, short_hash, author, subject, body⟩
      let statusOut ← Utils.exec env (diffTreeCmd c_hash) none
      classifyStatuses (pySplitSep "\x00" (rstripNul statusOut)) c
  | _ => raiseExc "ValueError"

/-! ## `Ref` and `PreReceiveContext` -/

/-- A named ref with its pushed commits, oldest first. -/
structure Ref where
  name : String
  commits : List Commit
deriving DecidableEq

/-- The per-line list comprehension `[Commit.from_hash(h) for h in hashes]`. -/
def fromHashes (env : Env) : List String → M (List Commit)
  | [] => M.pure []
  | h :: hs => do
      let c ← Commit.from_hash env h
      let cs ← fromHashes env hs
      M.pure (c :: cs)

/-- The line loop of `PreReceiveContext.from_reader`: each input line must
split into exactly three whitespace-separated fields (otherwise the list
destructuring raises `ValueError`); the commit range is resolved and the
`Ref` appended in input order. -/
def fromReaderLoop (env : Env) : List String → List Ref → M (List Ref)
  | [], acc => M.pure acc
  | line :: rest, acc =>
      match pySplitWs line with
      | [old_value, new_value, ref_name] => do
          let hs ← Commit.hashes_between env old_value new_value
          let cs ← fromHashes env hs
          fromReaderLoop env rest (acc ++ [Ref.mk ref_name cs])
      | _ => raiseExc "ValueError"

/-- `PreReceiveContext.from_reader` over standard input (the ref list of the
resulting context). -/
def PreReceiveContext.from_reader (env : Env) : M (List Ref) :=
  fromReaderLoop env env.stdin []

/-! ## `rust_hook` -/

/-- The shared cargo build cache `f"{HOOK_BUILD_DIR}/cache"`. -/
def cacheDir (env : Env) : String := hookBuildDir env ++ "/cache"

/-- The test command run for each commit. -/
def cargoTestCmd (env : Env) : String :=
  "unset GIT_QUARANTINE_PATH; cargo test --release --target-dir " ++ cacheDir env

/-- `run_tests(commit)`: materialize the commit, ensure the cache dir, run
cargo in the materialized tree; nonzero exit prints the failure detail and
fails the check. -/
def run_tests (env : Env) (commit : Commit) : M Bool := do
  let target_dir ← Commit.code_basedir env commit
  let _ ← Utils.exec env ("mkdir -m=775 -p " ++ cacheDir env) none
  let result ← Utils.non_bail_exec env (cargoTestCmd env) (some target_dir)
  if result.returncode ≠ 0 then
    tellPrint ("\nerror code [" ++ toString result.returncode ++ "] `" ++ cargoTestCmd env
      ++ "`\n" ++ result.stderr ++ "\n" ++ result.stdout)
  else
    M.pure ()
  M.pure (result.returncode == 0)

/-- Insertion into the Python `set` modelled as an insertion-ordered
duplicate-free list. -/
def setAdd (s : List String) (x : String) : List String :=
  if x ∈ s then s else s ++ [x]

/-- One loop iteration of `check_fmt_on_lst_commit`'s set computation:
`files_to_fmt.update(commit.updated_files + commit.new_files)` then
`files_to_fmt.difference_update(commit.deleted_files)`. -/
def fmtStep (s : List String) (c : Commit) : List String :=
  ((c.updated_files ++ c.new_files).foldl setAdd s).filter
    (fun f => !(c.deleted_files.contains f))

/-- The accumulated file set, before the extension filter. -/
def files_to_fmt_set (commits : List Commit) : List String :=
  commits.foldl fmtStep []

/-- `files_to_fmt = [f for f in files_to_fmt if f.endswith(".rs")]`. -/
def files_to_fmt (commits : List Commit) : List String :=
  (files_to_fmt_set commits).filter (fun f => pyEndsWith ".rs" f)

/-- The formatter command over the filtered file list. -/
def rustfmtCmd (files : List String) : String :=
  "rustfmt --edition 2021 --check " ++ joinWith " " files

/-- `check_fmt_on_lst_commit(ref)`: compute the filtered file set; empty set
passes immediately; otherwise materialize the last commit (`ref.commits[-1]`,
`IndexError` when empty) and run rustfmt there. -/
def check_fmt_on_lst_commit (env : Env) (ref : Ref) : M Bool := do
  let files := files_to_fmt ref.commits
  if files.isEmpty then
    M.pure true
  else
    match ref.commits.getLast? with
    | none => raiseExc "IndexError"
    | some lastCommit => do
        let target_dir ← Commit.code_basedir env lastCommit
        let result ← Utils.non_bail_exec env (rustfmtCmd files) (some target_dir)
        if result.returncode ≠ 0 then
          tellPrint ("\nerror code [" ++ toString result.returncode ++ "] `" ++ rustfmtCmd files
            ++ "`\n" ++ result.stderr ++ "\n" ++ result.stdout)
        else
          M.pure ()
        M.pure (result.returncode == 0)

/-- The per-commit test loop of `rust_hook`: commits in order, bail on the
first failing check. -/
def testCommitsLoop (env : Env) : List Commit → M Unit
  | [] => M.pure ()
  | commit :: rest => do
      let ok ← Utils.check (run_tests env commit) (Commit.display commit)
      if ok then testCommitsLoop env rest
      else Utils.bail "Push denied: please fix KO" 1

/-- The body of `rust_hook`'s ref loop for one ref.  For a ref named
`refs/heads/master`: print the section headers, evaluate the check label
`ref.commits[-1].display()` (an `IndexError` when the commit list is
empty — Python evaluates call arguments before entering `Utils.check`),
run the format check, bail if it fails, then run the test loop.  Any other
ref is untouched. -/
def processRef (env : Env) (ref : Ref) : M Unit :=
  if ref.name = "refs/heads/master" then do
    tellPrint ("  Running checks on " ++ ref.name)
    tellPrint "    rustfmt --check"
    match ref.commits.getLast? with
    | none => raiseExc "IndexError"
    | some lastCommit => do
        let ok ← Utils.check (check_fmt_on_lst_commit env ref) (Commit.display lastCommit)
        if ok then do
          tellPrint "    cargo test --release"
          testCommitsLoop env ref.commits
        else Utils.bail "Push denied: please fix KO" 1
  else M.pure ()

/-- `rust_hook`'s loop over the parsed refs. -/
def hookLoop (env : Env) : List Ref → M Unit
  | [] => M.pure ()
  | ref :: rest => do
      processRef env ref
      hookLoop env rest

/-- `rust_hook()`. -/
def rust_hook (env : Env) : M Unit := do
  tellPrint "Entering pre-receive hook"
  let refs ← PreReceiveContext.from_reader env
  hookLoop env refs
  tellPrint "Pre-receive hook success"

/-- Module-level initialization: `Utils.exec(f"mkdir -m=775 -p {HOOK_BUILD_DIR}")`. -/
def moduleInit (env : Env) : M Unit := do
  let _ ← Utils.exec env ("mkdir -m=775 -p " ++ hookBuildDir env) none
  M.pure ()

/-- Module import followed by `rust_hook()` (the part of `main` before the
trailing `exit(1)`). -/
def initAndHook (env : Env) : M Unit := do
  moduleInit env
  rust_hook env

/-- The whole process: module init, `main()` = `rust_hook()` then `exit(1)`
("prevent push for testing purposes, should be removed to actually push"). -/
def program (env : Env) : Except PyExit Unit × St :=
  (do initAndHook env; pyExit 1) St.init

/-! ## Derived observables used in theorem statements -/

/-- The full recorded shell command of a commit's test run. -/
def cargoFull (env : Env) : String :=
  "set -eufo pipefail;" ++ cargoTestCmd env

/-- The materialized directory of a commit when the `TemporaryDirectory`
suffix oracle returns `""` (see `suffixConst`). -/
def dirOf (env : Env) (c : Commit) : String :=
  hookBuildDir env ++ "/" ++ c.hash

/-- Whether a commit's `cargo test` run (in its materialized tree) exits 0. -/
def testPasses (env : Env) (c : Commit) : Bool :=
  (env.run (cargoFull env) (some (dirOf env c))).returncode == 0

/-- Whether a ref's format check passes: vacuously when the filtered file
set is empty, otherwise by the rustfmt exit status in the last commit's
materialized tree. -/
def fmtPasses (env : Env) (ref : Ref) : Bool :=
  if (files_to_fmt ref.commits).isEmpty then true
  else
    match ref.commits.getLast? with
    | none => true
    | some lastCommit =>
        (env.run ("set -eufo pipefail;" ++ rustfmtCmd (files_to_fmt ref.commits))
          (some (dirOf env lastCommit))).returncode == 0

/-- The commits whose test runner is invoked: the passing prefix and, when
one exists, the first failing commit. -/
def expectedTested (env : Env) (cs : List Commit) : List Commit :=
  cs.takeWhile (testPasses env) ++ (cs.dropWhile (testPasses env)).take 1

/-- The test-runner invocations recorded in a trace. -/
def cargoEvs (env : Env) (t : List Ev) : List Ev :=
  t.filter (fun e =>
    match e with
    | Ev.run cmd _ => decide (cmd = cargoFull env)
    | Ev.print _ => false)

/-- The infrastructure commands (versioning-engine queries and directory
setup) always succeed. -/
def infraOk (env : Env) : Prop :=
  ∀ cmd cwd,
    (isPrefixStr "set -eufo pipefail;git " cmd = true ∨
     isPrefixStr "set -eufo pipefail;mkdir " cmd = true) →
    (env.run cmd cwd).returncode = 0

/-- The `TemporaryDirectory` suffix oracle returns the empty string, so a
commit's materialized directory is `dirOf`. -/
def suffixConst (env : Env) : Prop :=
  ∀ n, env.freshSuffix n = ""

/-- A commit's materialization state is either absent or already the
commit's canonical directory. -/
def cbdOk (env : Env) (s : St) (c : Commit) : Prop :=
  lookupCbd s.cbd c.oid = none ∨ lookupCbd s.cbd c.oid = some (dirOf env c)

/-- The trace events `Commit.code_basedir` appends on a call made after the
tree already exists: the re-touch of updated/new files, when there are any. -/
def touchEvs (c : Commit) (d : String) : List Ev :=
  if (c.updated_files ++ c.new_files).isEmpty then []
  else [Ev.run ("set -eufo pipefail;" ++ touchCmd c) (some d)]

/-- Whether an event is the tree-extraction (`git archive`) command. -/
def isArchiveEv : Ev → Bool
  | Ev.run cmd _ => isPrefixStr "set -eufo pipefail;git archive " cmd
  | Ev.print _ => false

/-- Whether an event is a check-tool invocation (rustfmt or cargo). -/
def isCheckCmdEv : Ev → Bool
  | Ev.run cmd _ =>
      isPrefixStr "set -eufo pipefail;rustfmt " cmd ||
      isPrefixStr "set -eufo pipefail;unset " cmd
  | Ev.print _ => false

/-- Whether an event is a print or an infrastructure command (git or mkdir). -/
def infraEv : Ev → Bool
  | Ev.run cmd _ =>
      isPrefixStr "set -eufo pipefail;git " cmd ||
      isPrefixStr "set -eufo pipefail;mkdir " cmd
  | Ev.print _ => true

/-- A computation only appends prints and infrastructure commands to the
trace (used to state that parsing never invokes a check tool). -/
def InfraExt {α : Type} (x : M α) : Prop :=
  ∀ s e, e ∈ (x s).snd.trace → e ∈ s.trace ∨ infraEv e = true

/-- Modelled from the spec for claim C3 only (the code is
`files_to_fmt_set`): "union all updated+new file paths across every commit
in the ref, subtract all deleted paths", filtered to `.rs`. -/
def specFmtFiles (commits : List Commit) : List String :=
  ((commits.foldl (fun s c => (c.updated_files ++ c.new_files).foldl setAdd s) []).filter
    (fun f => !(commits.any (fun c => c.deleted_files.contains f)))).filter
    (fun f => pyEndsWith ".rs" f)

/-! ## Concrete instances used by counterexamples and witnesses -/

/-- A subprocess oracle whose commands all succeed silently. -/
def zeroRun : String → Option String → CmdResult := fun _ _ => ⟨0, "", ""⟩

/-- A push of one commit to master that adds a single non-Rust file and
whose commands all succeed: every check passes. -/
def envC1 : Env := ⟨fun cmd _ =>
  if isPrefixStr "set -eufo pipefail;git rev-list" cmd then ⟨0, "h1\n", ""⟩
  else if isPrefixStr "set -eufo pipefail;git log" cmd then
    ⟨0, "2024-01-01 10:00:00 +0000»¦«abc1234»¦«al»¦«sub»¦«b\n", ""⟩
  else if isPrefixStr "set -eufo pipefail;git diff-tree" cmd then ⟨0, "A\x00README.md\x00", ""⟩
  else ⟨0, "", ""⟩,
  fun _ => "", "/g", ["0000000000000000000000000000000000000000 h1 refs/heads/master"]⟩

/-- A push updating master whose revision range is empty (for example a
push of already-present commits): `git rev-list` prints nothing. -/
def envC8 : Env := ⟨zeroRun, fun _ => "", "/g", ["oldrev newrev refs/heads/master"]⟩

/-- An environment whose commands all fail with exit code 2 and stderr
`boom`. -/
def envC5 : Env := ⟨fun _ _ => ⟨2, "out", "boom"⟩, fun _ => "", "/g", []⟩

/-- A push event containing a malformed input line (one field). -/
def envC6 : Env := ⟨zeroRun, fun _ => "", "/g", ["not-three-fields"]⟩

/-- An environment whose metadata query answers with six separator-delimited
fields (the commit body itself contains the separator). -/
def envC10 : Env := ⟨fun cmd _ =>
  if isPrefixStr "set -eufo pipefail;git log" cmd then ⟨0, "a»¦«b»¦«c»¦«d»¦«e»¦«f", ""⟩
  else ⟨0, "", ""⟩,
  fun _ => "", "/g", []⟩

/-- A quiet environment with a nonempty temporary-directory suffix. -/
def envC4 : Env := ⟨zeroRun, fun _ => "sfx", "/g", []⟩

/-- A commit with one updated and one new file. -/
def cC4 : Commit := ⟨"ch", 7, ["u.rs"], [], ["n.txt"], "", "", "", "", ""⟩

/-- The full cargo command of the environment `envC2` (gitDir `/g`). -/
def cargoLitW : String :=
  "set -eufo pipefail;unset GIT_QUARANTINE_PATH; cargo test --release --target-dir /g/hooks/pre_receive_hook_tmp_build_dir/cache"

/-- An environment where only the second commit's test run fails. -/
def envC2 : Env := ⟨fun cmd cwd =>
  if cmd = cargoLitW ∧ cwd = some "/g/hooks/pre_receive_hook_tmp_build_dir/h2" then
    ⟨1, "", "test fail"⟩
  else ⟨0, "", ""⟩,
  fun _ => "", "/g", []⟩

/-- First commit of the C2 witness ref (its test passes). -/
def cW1 : Commit := ⟨"h1", 0, [], [], [], "", "", "a", "s1", ""⟩

/-- Second commit of the C2 witness ref (its test fails). -/
def cW2 : Commit := ⟨"h2", 1, [], [], [], "", "", "a", "s2", ""⟩

/-- The C2 witness ref. -/
def refW : Ref := ⟨"refs/heads/master", [cW1, cW2]⟩

/-- A commit updating `a.rs`. -/
def cMod : Commit := ⟨"cm", 0, ["a.rs"], [], [], "", "", "", "", ""⟩

/-- A commit deleting `a.rs`. -/
def cDel : Commit := ⟨"cd", 1, [], ["a.rs"], [], "", "", "", "", ""⟩

/-- A commit adding `a.rs` back. -/
def cAdd : Commit := ⟨"ca", 2, [], [], ["a.rs"], "", "", "", "", ""⟩

/-- A commit adding only a non-Rust file. -/
def cTxt : Commit := ⟨"ct", 0, [], [], ["doc.txt"], "", "", "", "", ""⟩

/-- A master ref whose filtered format file-set is empty. -/
def refC7 : Ref := ⟨"refs/heads/master", [cTxt]⟩

/-- The state after first materializing `cC4` in `envC4`. -/
def stC4 : St :=
  ⟨0, 1, [(7, "/g/hooks/pre_receive_hook_tmp_build_dir/chsfx")],
   [Ev.run "set -eufo pipefail;git archive ch | tar -x -C /g/hooks/pre_receive_hook_tmp_build_dir/chsfx" none,
    Ev.run "set -eufo pipefail;touch u.rs n.txt" (some "/g/hooks/pre_receive_hook_tmp_build_dir/chsfx")]⟩

/-! ## Monad application lemmas -/

theorem M.bind_ok {α β : Type} {x : M α} {s s2 : St} {a : α} (f : α → M β)
    (h : x s = (Except.ok a, s2)) : (x >>= f) s = f a s2 := by
  show M.bind x f s = f a s2
  rw [M.bind, h]

theorem M.bind_err {α β : Type} {x : M α} {s s2 : St} {e : PyExit} (f : α → M β)
    (h : x s = (Except.error e, s2)) : (x >>= f) s = (Except.error e, s2) := by
  show M.bind x f s = (Except.error e, s2)
  rw [M.bind, h]

theorem M.pure_apply {α : Type} (a : α) (s : St) : (M.pure a) s = (Except.ok a, s) := rfl

theorem M.bind_def {α β : Type} (x : M α) (f : α → M β) : x >>= f = M.bind x f := rfl

theorem M.pure_def {α : Type} (a : α) : (pure a : M α) = M.pure a := rfl

/-! ## String lemmas -/

theorem strData_append (s t : String) : (s ++ t).data = s.data ++ t.data := by
  cases s
  cases t
  rfl

theorem isPrefixStr_extend (p s u : String) (h : isPrefixStr p s = true) :
    isPrefixStr p (s ++ u) = true := by
  rw [isPrefixStr, List.isPrefixOf_iff_prefix] at h ⊢
  rw [strData_append]
  exact h.trans (List.prefix_append _ _)

theorem isPrefixStr_append_left (a p t : String) (h : isPrefixStr p t = true) :
    isPrefixStr (a ++ p) (a ++ t) = true := by
  rw [isPrefixStr, List.isPrefixOf_iff_prefix] at h ⊢
  rw [strData_append, strData_append]
  obtain ⟨r, hr⟩ := h
  exact ⟨r, by rw [← hr, List.append_assoc]⟩

theorem getElem_lt_length {l : List Char} {n : Nat} {a : Char} (h : l[n]? = some a) :
    n < l.length := by
  by_contra hn
  push_neg at hn
  rw [List.getElem?_eq_none hn] at h
  cases h

theorem getElem0_append (x y : String) (c : Char) (h : x.data[0]? = some c) :
    (x ++ y).data[0]? = some c := by
  rw [strData_append, List.getElem?_append_left (getElem_lt_length h)]
  exact h

theorem data19 (t : String) : ("set -eufo pipefail;" ++ t).data[19]? = t.data[0]? := by
  rw [strData_append]
  have hl : ("set -eufo pipefail;").data.length = 19 := by decide
  rw [List.getElem?_append_right (le_of_eq hl), hl]

theorem str_ne_of_data_getElem (s t : String) (n : Nat) (a b : Char)
    (hs : s.data[n]? = some a) (ht : t.data[n]? = some b) (hne : a ≠ b) : s ≠ t := by
  intro he
  rw [he, ht] at hs
  exact hne (Option.some.inj hs).symm

theorem not_isPrefixStr_of_getElem (p s : String) (n : Nat) (a b : Char)
    (hp : p.data[n]? = some a) (hs : s.data[n]? = some b) (hne : a ≠ b) :
    isPrefixStr p s = false := by
  rcases hps : isPrefixStr p s with _ | _
  · rfl
  · exfalso
    rw [isPrefixStr, List.isPrefixOf_iff_prefix] at hps
    obtain ⟨r, hr⟩ := hps
    rw [← hr, List.getElem?_append_left (getElem_lt_length hp), hp] at hs
    exact hne (Option.some.inj hs)

theorem getElem_of_isPrefixStr (p s : String) (n : Nat) (a : Char)
    (h : isPrefixStr p s = true) (ha : p.data[n]? = some a) : s.data[n]? = some a := by
  rw [isPrefixStr, List.isPrefixOf_iff_prefix] at h
  obtain ⟨r, hr⟩ := h
  rw [← hr, List.getElem?_append_left (getElem_lt_length ha)]
  exact ha

/-! ## Set-fold lemmas for the format file-set -/

theorem mem_setAdd {p x : String} {s : List String} : p ∈ setAdd s x ↔ p ∈ s ∨ p = x := by
  unfold setAdd
  split
  · rename_i hx
    constructor
    · exact Or.inl
    · rintro (h | rfl)
      · exact h
      · exact hx
  · simp

theorem mem_foldl_setAdd (p : String) (xs s : List String) :
    p ∈ xs.foldl setAdd s ↔ p ∈ s ∨ p ∈ xs := by
  induction xs generalizing s with
  | nil => simp
  | cons x xs ih =>
      rw [List.foldl_cons, ih, mem_setAdd]
      simp [or_assoc]

theorem mem_fmtStep {p : String} {s : List String} {c : Commit} :
    p ∈ fmtStep s c ↔ (p ∈ s ∨ p ∈ c.updated_files ++ c.new_files) ∧ p ∉ c.deleted_files := by
  unfold fmtStep
  rw [List.mem_filter, mem_foldl_setAdd]
  simp

theorem not_mem_foldl_fmtStep (p : String) (cs : List Commit) (s : List String)
    (hs : p ∉ s) (h : ∀ c ∈ cs, p ∉ c.updated_files ++ c.new_files) :
    p ∉ cs.foldl fmtStep s := by
  induction cs generalizing s with
  | nil => simpa
  | cons c cs ih =>
      rw [List.foldl_cons]
      apply ih
      · intro hmem
        rw [mem_fmtStep] at hmem
        rcases hmem.1 with h1 | h2
        · exact hs h1
        · exact h c (by simp) h2
      · intro c2 hc2
        exact h c2 (by simp [hc2])

/-! ## `Utils.exec` evaluation lemmas -/

theorem Utils.exec_ok (env : Env) (cmd : String) (cwd : Option String) (s : St)
    (h : (env.run ("set -eufo pipefail;" ++ cmd) cwd).returncode = 0) :
    Utils.exec env cmd cwd s =
      (Except.ok (env.run ("set -eufo pipefail;" ++ cmd) cwd).stdout,
       ⟨s.nextOid, s.nextTmp, s.cbd, s.trace ++ [Ev.run ("set -eufo pipefail;" ++ cmd) cwd]⟩) := by
  obtain ⟨a, b, c, t⟩ := s
  simp only [Utils.exec, M.bind_def, M.bind, Utils.non_bail_exec, h, ne_eq]
  rfl

theorem Utils.exec_fail (env : Env) (cmd : String) (cwd : Option String) (s : St)
    (h : (env.run ("set -eufo pipefail;" ++ cmd) cwd).returncode ≠ 0) :
    Utils.exec env cmd cwd s =
      (Except.error (PyExit.exit 1),
       ⟨s.nextOid, s.nextTmp, s.cbd,
        s.trace ++ [Ev.run ("set -eufo pipefail;" ++ cmd) cwd,
          Ev.print ("Failed to push: cmd `" ++ cmd ++ "` failed: "
            ++ pyRstrip (env.run ("set -eufo pipefail;" ++ cmd) cwd).stderr)]⟩) := by
  obtain ⟨a, b, c, t⟩ := s
  simp only [Utils.exec, M.bind_def, M.bind, Utils.non_bail_exec, ne_eq]
  rw [if_pos h, Utils.bail]
  simp [List.append_assoc]

/-! ## Claims C3, C5, C7 -/

/-- Claim C3 counterexample: the file set the code passes to the format
check is not the union-minus-union of the spec sentence.  With a ref whose
first commit deletes `a.rs` and whose second commit adds it back, the code
passes `a.rs` to rustfmt (correctly: the file exists in the final tree),
while the claimed union-minus-deleted formula excludes it. -/
theorem claim_C3_counterexample :
    files_to_fmt [cDel, cAdd] = ["a.rs"] ∧ specFmtFiles [cDel, cAdd] = [] := by
  decide

/-- Claim C3 (amended): the file set is computed commit-by-commit in order
(add each commit's updated and new paths, then subtract its deleted paths),
so a path deleted by a commit is excluded — even if modified or added
earlier in the ref — provided no later commit adds or updates it again. -/
theorem claim_C3 (pre post : List Commit) (ci : Commit) (p : String)
    (hdel : p ∈ ci.deleted_files)
    (hpost : ∀ c ∈ post, p ∉ c.updated_files ++ c.new_files) :
    p ∉ files_to_fmt_set (pre ++ ci :: post) ∧ p ∉ files_to_fmt (pre ++ ci :: post) := by
  have h1 : p ∉ files_to_fmt_set (pre ++ ci :: post) := by
    unfold files_to_fmt_set
    rw [List.foldl_append, List.foldl_cons]
    apply not_mem_foldl_fmtStep
    · intro hmem
      rw [mem_fmtStep] at hmem
      exact hmem.2 hdel
    · exact hpost
  refine ⟨h1, fun hmem => h1 ?_⟩
  exact List.mem_of_mem_filter hmem

/-- Claim C3 witness: `a.rs` is updated by the first commit and deleted by
the second (and last) commit of the ref, and is excluded from the format
file-set. -/
theorem claim_C3_witness :
    ("a.rs" ∈ cDel.deleted_files ∧
      ∀ c ∈ ([] : List Commit), "a.rs" ∉ c.updated_files ++ c.new_files) ∧
    ("a.rs" ∉ files_to_fmt_set [cMod, cDel] ∧ "a.rs" ∉ files_to_fmt [cMod, cDel]) :=
  ⟨⟨by decide, fun c hc => absurd hc (List.not_mem_nil c)⟩,
   claim_C3 [cMod] [] cDel "a.rs" (by decide) (fun c hc => absurd hc (List.not_mem_nil c))⟩

/-- Claim C5 counterexample: a command failing with exit code 2 and stderr
`boom`.  `Utils.exec` terminates the process with exit status 1 (not 2) and
prints `Failed to push: cmd `cc main.c` failed: boom`, which carries the
command and the stderr but nowhere the exit code 2. -/
theorem claim_C5_counterexample :
    (Utils.exec envC5 "cc main.c" none St.init).fst = Except.error (PyExit.exit 1) ∧
    (Utils.exec envC5 "cc main.c" none St.init).snd.trace =
      [Ev.run "set -eufo pipefail;cc main.c" none,
       Ev.print "Failed to push: cmd `cc main.c` failed: boom"] ∧
    (envC5.run "set -eufo pipefail;cc main.c" none).returncode = 2 ∧
    containsSub "Failed to push: cmd `cc main.c` failed: boom" "2" = false := by
  decide

/-- Claim C5 (amended): for every command completing with a nonzero exit
code, `Utils.exec` terminates the whole process with exit status 1 and a
fatal message carrying the failing command and the rstripped captured
stderr (the command's own exit code is not part of the message); it never
returns stdout in that case. -/
theorem claim_C5 (env : Env) (cmd : String) (cwd : Option String) (s : St)
    (h : (env.run ("set -eufo pipefail;" ++ cmd) cwd).returncode ≠ 0) :
    Utils.exec env cmd cwd s =
      (Except.error (PyExit.exit 1),
       ⟨s.nextOid, s.nextTmp, s.cbd,
        s.trace ++ [Ev.run ("set -eufo pipefail;" ++ cmd) cwd,
          Ev.print ("Failed to push: cmd `" ++ cmd ++ "` failed: "
            ++ pyRstrip (env.run ("set -eufo pipefail;" ++ cmd) cwd).stderr)]⟩) :=
  Utils.exec_fail env cmd cwd s h

/-- Claim C5 witness: the amended statement at the concrete failing
environment. -/
theorem claim_C5_witness :
    (envC5.run "set -eufo pipefail;cc x.c" none).returncode ≠ 0 ∧
    Utils.exec envC5 "cc x.c" none St.init =
      (Except.error (PyExit.exit 1),
       ⟨St.init.nextOid, St.init.nextTmp, St.init.cbd,
        St.init.trace ++ [Ev.run "set -eufo pipefail;cc x.c" none,
          Ev.print ("Failed to push: cmd `" ++ "cc x.c" ++ "` failed: "
            ++ pyRstrip (envC5.run "set -eufo pipefail;cc x.c" none).stderr)]⟩) :=
  ⟨by decide, claim_C5 envC5 "cc x.c" none St.init (by decide)⟩

/-- Claim C7: a matching ref whose filtered format file-set is empty passes
the format check with the run state untouched — no formatter invocation, no
materialization, no print. -/
theorem claim_C7 (env : Env) (ref : Ref) (s : St)
    (h : files_to_fmt ref.commits = []) :
    check_fmt_on_lst_commit env ref s = (Except.ok true, s) := by
  unfold check_fmt_on_lst_commit
  rw [h]
  rfl

/-- Claim C7 witness: a master ref whose single commit adds only `doc.txt`. -/
theorem claim_C7_witness :
    files_to_fmt refC7.commits = [] ∧
    check_fmt_on_lst_commit envC4 refC7 St.init = (Except.ok true, St.init) :=
  ⟨by decide, claim_C7 envC4 refC7 St.init (by decide)⟩

/-! ## `Commit.code_basedir` evaluation lemmas and claim C4 -/

theorem touchFiles_apply (env : Env) (c : Commit) (d : String) (s : St) :
    touchFiles env c d s =
      (Except.ok (), ⟨s.nextOid, s.nextTmp, s.cbd, s.trace ++ touchEvs c d⟩) := by
  obtain ⟨a, b, cc, t⟩ := s
  by_cases he : (c.updated_files ++ c.new_files).isEmpty = true
  · simp only [touchFiles, touchEvs, he, if_true]
    simp [M.pure]
  · simp only [touchFiles, touchEvs, he, if_false]
    simp only [M.bind_def, M.bind, Utils.non_bail_exec]
    rfl

theorem code_basedir_memo (env : Env) (c : Commit) (s : St) (d : String)
    (h : lookupCbd s.cbd c.oid = some d) :
    Commit.code_basedir env c s =
      (Except.ok d, ⟨s.nextOid, s.nextTmp, s.cbd, s.trace ++ touchEvs c d⟩) := by
  unfold Commit.code_basedir
  rw [M.bind_ok _ (rfl : getSt s = (Except.ok s, s))]
  simp only [h]
  rw [M.bind_ok _ (touchFiles_apply env c d s)]
  rfl

theorem code_basedir_lookup (env : Env) (c : Commit) (s s1 : St) (d : String)
    (h : Commit.code_basedir env c s = (Except.ok d, s1)) :
    lookupCbd s1.cbd c.oid = some d := by
  unfold Commit.code_basedir at h
  rw [M.bind_ok _ (rfl : getSt s = (Except.ok s, s))] at h
  rcases hl : lookupCbd s.cbd c.oid with _ | d0
  · simp only [hl] at h
    obtain ⟨a, b, cc, t⟩ := s
    rw [M.bind_ok _ (rfl : freshTmpName env c.hash ⟨a, b, cc, t⟩ =
      (Except.ok (hookBuildDir env ++ "/" ++ c.hash ++ env.freshSuffix b), ⟨a, b + 1, cc, t⟩))] at h
    by_cases hrc : (env.run ("set -eufo pipefail;" ++ ("git archive " ++ c.hash ++ " | tar -x -C "
        ++ (hookBuildDir env ++ "/" ++ c.hash ++ env.freshSuffix b))) none).returncode = 0
    · rw [M.bind_ok _ (Utils.exec_ok env _ none _ hrc)] at h
      rw [M.bind_ok _ (rfl : setCbd c.oid (hookBuildDir env ++ "/" ++ c.hash ++ env.freshSuffix b)
        ⟨a, b + 1, cc, t ++ [Ev.run ("set -eufo pipefail;" ++ ("git archive " ++ c.hash ++ " | tar -x -C "
          ++ (hookBuildDir env ++ "/" ++ c.hash ++ env.freshSuffix b))) none]⟩ =
        (Except.ok (), ⟨a, b + 1, (c.oid, hookBuildDir env ++ "/" ++ c.hash ++ env.freshSuffix b) :: cc,
          t ++ [Ev.run ("set -eufo pipefail;" ++ ("git archive " ++ c.hash ++ " | tar -x -C "
          ++ (hookBuildDir env ++ "/" ++ c.hash ++ env.freshSuffix b))) none]⟩))] at h
      rw [M.bind_ok _ (touchFiles_apply env c _ _)] at h
      rw [M.pure_apply] at h
      injection h with h1 h2
      injection h1 with h1
      subst h1
      subst h2
      simp [lookupCbd]
    · rw [M.bind_err _ (Utils.exec_fail env _ none _ hrc)] at h
      simp at h
  · simp only [hl] at h
    rw [M.bind_ok _ (touchFiles_apply env c d0 s), M.pure_apply] at h
    injection h with h1 h2
    injection h1 with h1
    subst h1
    subst h2
    exact hl

/-- Claim C4: `Commit.code_basedir` is idempotent.  After any successful
call returning directory `d`, a further call returns the same directory,
extends the trace exactly by the re-touch of the commit's updated and new
files (when there are any), and in particular never runs the
tree-extraction (`git archive`) command again. -/
theorem claim_C4 (env : Env) (c : Commit) (s s1 : St) (d : String)
    (h : Commit.code_basedir env c s = (Except.ok d, s1)) :
    Commit.code_basedir env c s1 =
      (Except.ok d, ⟨s1.nextOid, s1.nextTmp, s1.cbd, s1.trace ++ touchEvs c d⟩) ∧
    (∀ e ∈ touchEvs c d, isArchiveEv e = false) := by
  refine ⟨code_basedir_memo env c s1 d (code_basedir_lookup env c s s1 d h), ?_⟩
  intro e he
  unfold touchEvs at he
  by_cases hemp : (c.updated_files ++ c.new_files).isEmpty = true
  · rw [if_pos hemp] at he
    cases he
  · rw [if_neg hemp] at he
    have he2 := List.mem_singleton.mp he
    subst he2
    show isPrefixStr "set -eufo pipefail;git archive " ("set -eufo pipefail;" ++ touchCmd c) = false
    apply not_isPrefixStr_of_getElem _ _ 19 'g' 't'
    · decide
    · rw [data19]
      show ("touch " ++ joinWith " " (c.updated_files ++ c.new_files)).data[0]? = some 't'
      exact getElem0_append "touch " (joinWith " " (c.updated_files ++ c.new_files)) 't' (by decide)
    · decide

/-- Claim C4 witness: a first materialization of `cC4` from the initial
state, followed by the second call described by the claim. -/
theorem claim_C4_witness :
    Commit.code_basedir envC4 cC4 St.init =
      (Except.ok "/g/hooks/pre_receive_hook_tmp_build_dir/chsfx", stC4) ∧
    (Commit.code_basedir envC4 cC4 stC4 =
      (Except.ok "/g/hooks/pre_receive_hook_tmp_build_dir/chsfx",
       ⟨stC4.nextOid, stC4.nextTmp, stC4.cbd,
        stC4.trace ++ touchEvs cC4 "/g/hooks/pre_receive_hook_tmp_build_dir/chsfx"⟩) ∧
     ∀ e ∈ touchEvs cC4 "/g/hooks/pre_receive_hook_tmp_build_dir/chsfx", isArchiveEv e = false) :=
  ⟨by decide,
   claim_C4 envC4 cC4 St.init stC4 "/g/hooks/pre_receive_hook_tmp_build_dir/chsfx" (by decide)⟩

/-! ## Claim C10 -/

/-- Claim C10: when the metadata query succeeds but its output does not
split into exactly five separator-delimited fields, `Commit.from_hash`
raises an unhandled `ValueError` — not the `Utils.bail` reporting path: no
message is printed, no further query is issued, and no `Commit` is
constructed. -/
theorem claim_C10 (env : Env) (c_hash : String) (s : St)
    (hrc : (env.run ("set -eufo pipefail;" ++ logCmd c_hash) none).returncode = 0)
    (hlen : (pySplitSep SEP (pyRstrip
        (env.run ("set -eufo pipefail;" ++ logCmd c_hash) none).stdout)).length ≠ 5) :
    Commit.from_hash env c_hash s =
      (Except.error (PyExit.exc "ValueError"),
       ⟨s.nextOid, s.nextTmp, s.cbd,
        s.trace ++ [Ev.run ("set -eufo pipefail;" ++ logCmd c_hash) none]⟩) := by
  unfold Commit.from_hash
  rw [M.bind_ok _ (Utils.exec_ok env (logCmd c_hash) none s hrc)]
  rcases hsp : pySplitSep SEP (pyRstrip
      (env.run ("set -eufo pipefail;" ++ logCmd c_hash) none).stdout)
    with _ | ⟨x1, _ | ⟨x2, _ | ⟨x3, _ | ⟨x4, _ | ⟨x5, _ | rest⟩⟩⟩⟩⟩ <;>
    simp only [hsp] <;> first
      | rfl
      | (exfalso; rw [hsp] at hlen; simp at hlen)

/-- Claim C10 witness: a metadata answer whose body contains the separator,
yielding six fields. -/
theorem claim_C10_witness :
    (envC10.run ("set -eufo pipefail;" ++ logCmd "zzz") none).returncode = 0 ∧
    (pySplitSep SEP (pyRstrip
        (envC10.run ("set -eufo pipefail;" ++ logCmd "zzz") none).stdout)).length ≠ 5 ∧
    Commit.from_hash envC10 "zzz" St.init =
      (Except.error (PyExit.exc "ValueError"),
       ⟨St.init.nextOid, St.init.nextTmp, St.init.cbd,
        St.init.trace ++ [Ev.run ("set -eufo pipefail;" ++ logCmd "zzz") none]⟩) :=
  ⟨by decide, by decide, claim_C10 envC10 "zzz" St.init (by decide) (by decide)⟩

/-! ## Claim C9: non-matching refs are skipped -/

theorem processRef_skip (env : Env) (r : Ref) (s : St)
    (hn : ¬(r.name = "refs/heads/master")) :
    processRef env r s = (Except.ok (), s) := by
  unfold processRef
  rw [if_neg hn]
  rfl

theorem hookLoop_cons (env : Env) (r : Ref) (rest : List Ref) (s : St) :
    hookLoop env (r :: rest) s =
      (processRef env r >>= fun _ => hookLoop env rest) s := rfl

/-- Claim C9: refs not named `refs/heads/master` are passed through
untouched: the hook's ref loop computes the same result and the same final
state (same trace, same exit) as the loop over only the master-named refs,
so non-matching refs have no checks run and cannot affect the accept/deny
decision. -/
theorem claim_C9 (env : Env) (refs : List Ref) (s : St) :
    hookLoop env refs s =
      hookLoop env (refs.filter (fun r => r.name == "refs/heads/master")) s := by
  induction refs generalizing s with
  | nil => rfl
  | cons r rest ih =>
      by_cases hn : r.name = "refs/heads/master"
      · have hf : (r :: rest).filter (fun x => x.name == "refs/heads/master")
            = r :: rest.filter (fun x => x.name == "refs/heads/master") := by
          simp [List.filter_cons, hn]
        rw [hf, hookLoop_cons, hookLoop_cons]
        rcases hp : processRef env r s with ⟨res, s2⟩
        rcases res with e | a
        · rw [M.bind_err _ hp, M.bind_err _ hp]
        · rw [M.bind_ok _ hp, M.bind_ok _ hp]
          exact ih s2
      · have hf : (r :: rest).filter (fun x => x.name == "refs/heads/master")
            = rest.filter (fun x => x.name == "refs/heads/master") := by
          simp [List.filter_cons, hn]
        rw [hf, hookLoop_cons, M.bind_ok _ (processRef_skip env r s hn)]
        exact ih s

/-! ## Claim C6: malformed input aborts before any check -/

theorem infraExt_pure {α : Type} (a : α) : InfraExt (M.pure a) := by
  intro s e he
  exact Or.inl he

theorem infraExt_bind {α β : Type} (x : M α) (f : α → M β)
    (hx : InfraExt x) (hf : ∀ a, InfraExt (f a)) : InfraExt (x >>= f) := by
  intro s e he
  rcases hxs : x s with ⟨res, s2⟩
  rcases res with er | a
  · rw [M.bind_err _ hxs] at he
    have := hx s e
    rw [hxs] at this
    exact this he
  · rw [M.bind_ok _ hxs] at he
    rcases hf a s2 e he with h1 | h2
    · have := hx s e
      rw [hxs] at this
      exact this h1
    · exact Or.inr h2

theorem infraExt_tellPrint (msg : String) : InfraExt (tellPrint msg) := by
  intro s e he
  obtain ⟨a, b, c, t⟩ := s
  simp only [tellPrint, List.mem_append, List.mem_singleton] at he
  rcases he with h1 | h2
  · exact Or.inl h1
  · subst h2
    exact Or.inr rfl

theorem infraExt_raise {α : Type} (msg : String) : InfraExt (raiseExc msg : M α) := by
  intro s e he
  exact Or.inl he

theorem infraExt_bail {α : Type} (msg : String) (code : Int) :
    InfraExt (Utils.bail msg code : M α) := by
  intro s e he
  obtain ⟨a, b, c, t⟩ := s
  simp only [Utils.bail, List.mem_append, List.mem_singleton] at he
  rcases he with h1 | h2
  · exact Or.inl h1
  · subst h2
    exact Or.inr rfl

theorem infraExt_freshOid : InfraExt freshOid := by
  intro s e he
  obtain ⟨a, b, c, t⟩ := s
  exact Or.inl he

theorem infraEv_run_of_stem (cmd : String) (cwd : Option String)
    (h : isPrefixStr "git " cmd = true ∨ isPrefixStr "mkdir " cmd = true) :
    infraEv (Ev.run ("set -eufo pipefail;" ++ cmd) cwd) = true := by
  show (isPrefixStr "set -eufo pipefail;git " ("set -eufo pipefail;" ++ cmd)
    || isPrefixStr "set -eufo pipefail;mkdir " ("set -eufo pipefail;" ++ cmd)) = true
  rcases h with hg | hm
  · rw [show ("set -eufo pipefail;git " : String) = "set -eufo pipefail;" ++ "git " from by decide,
       isPrefixStr_append_left "set -eufo pipefail;" "git " cmd hg]
    rfl
  · rw [show ("set -eufo pipefail;mkdir " : String) = "set -eufo pipefail;" ++ "mkdir " from by decide,
       isPrefixStr_append_left "set -eufo pipefail;" "mkdir " cmd hm]
    exact Bool.or_true _

theorem infraExt_exec (env : Env) (cmd : String) (cwd : Option String)
    (h : isPrefixStr "git " cmd = true ∨ isPrefixStr "mkdir " cmd = true) :
    InfraExt (Utils.exec env cmd cwd) := by
  intro s e he
  by_cases hrc : (env.run ("set -eufo pipefail;" ++ cmd) cwd).returncode = 0
  · rw [Utils.exec_ok env cmd cwd s hrc] at he
    simp only [List.mem_append, List.mem_singleton] at he
    rcases he with h1 | h2
    · exact Or.inl h1
    · subst h2
      exact Or.inr (infraEv_run_of_stem cmd cwd h)
  · rw [Utils.exec_fail env cmd cwd s hrc] at he
    simp only [List.mem_append, List.mem_cons, List.mem_singleton] at he
    rcases he with h1 | h2 | h3
    · exact Or.inl h1
    · subst h2
      exact Or.inr (infraEv_run_of_stem cmd cwd h)
    · rcases h3 with h3 | h3
      · subst h3
        exact Or.inr rfl
      · cases h3

theorem logCmd_git (h : String) : isPrefixStr "git " (logCmd h) = true := by
  unfold logCmd
  repeat apply isPrefixStr_extend
  decide

theorem diffTreeCmd_git (h : String) : isPrefixStr "git " (diffTreeCmd h) = true := by
  unfold diffTreeCmd
  repeat apply isPrefixStr_extend
  decide

theorem infraExt_classify (pairs : List String) (c : Commit) :
    InfraExt (classifyStatuses pairs c) := by
  induction pairs, c using classifyStatuses.induct with
  | case1 c => exact infraExt_pure c
  | case2 st c => exact infraExt_raise "IndexError"
  | case3 p rest c ih =>
      unfold classifyStatuses
      rw [if_pos rfl]
      exact ih
  | case4 p rest c h1 ih =>
      unfold classifyStatuses
      rw [if_neg h1, if_pos rfl]
      exact ih
  | case5 p rest c h1 h2 ih =>
      unfold classifyStatuses
      rw [if_neg h1, if_neg h2, if_pos rfl]
      exact ih
  | case6 st p rest c h1 h2 h3 =>
      unfold classifyStatuses
      rw [if_neg h1, if_neg h2, if_neg h3]
      exact infraExt_bail _ 1

theorem revListCmd_git (fst lst : String) :
    isPrefixStr "git " ("git rev-list --reverse --topo-order " ++ fst ++ ".." ++ lst) = true := by
  repeat apply isPrefixStr_extend
  decide

theorem infraExt_from_hash (env : Env) (c_hash : String) :
    InfraExt (Commit.from_hash env c_hash) := by
  unfold Commit.from_hash
  apply infraExt_bind
  · exact infraExt_exec env (logCmd c_hash) none (Or.inl (logCmd_git c_hash))
  · intro out
    rcases pySplitSep SEP (pyRstrip out)
      with _ | ⟨x1, _ | ⟨x2, _ | ⟨x3, _ | ⟨x4, _ | ⟨x5, _ | rest⟩⟩⟩⟩⟩
    · exact infraExt_raise "ValueError"
    · exact infraExt_raise "ValueError"
    · exact infraExt_raise "ValueError"
    · exact infraExt_raise "ValueError"
    · exact infraExt_raise "ValueError"
    · apply infraExt_bind
      · exact infraExt_freshOid
      · intro oid
        apply infraExt_bind
        · exact infraExt_exec env (diffTreeCmd c_hash) none (Or.inl (diffTreeCmd_git c_hash))
        · intro statusOut
          exact infraExt_classify _ _
    · exact infraExt_raise "ValueError"

theorem infraExt_fromHashes (env : Env) (hs : List String) :
    InfraExt (fromHashes env hs) := by
  induction hs with
  | nil => exact infraExt_pure []
  | cons h rest ih =>
      apply infraExt_bind
      · exact infraExt_from_hash env h
      · intro c
        apply infraExt_bind
        · exact ih
        · intro cs
          exact infraExt_pure _

theorem infraExt_hashes_between (env : Env) (fst lst : String) :
    InfraExt (Commit.hashes_between env fst lst) := by
  apply infraExt_bind
  · exact infraExt_exec env _ none (Or.inl (revListCmd_git fst lst))
  · intro out
    exact infraExt_pure _

theorem infraExt_fromReaderLoop (env : Env) (lines : List String) (acc : List Ref) :
    InfraExt (fromReaderLoop env lines acc) := by
  induction lines generalizing acc with
  | nil => exact infraExt_pure acc
  | cons line rest ih =>
      show InfraExt (fromReaderLoop env (line :: rest) acc)
      unfold fromReaderLoop
      rcases pySplitWs line with _ | ⟨x1, _ | ⟨x2, _ | ⟨x3, _ | more⟩⟩⟩
      · exact infraExt_raise "ValueError"
      · exact infraExt_raise "ValueError"
      · exact infraExt_raise "ValueError"
      · apply infraExt_bind
        · exact infraExt_hashes_between env x1 x2
        · intro hs
          apply infraExt_bind
          · exact infraExt_fromHashes env hs
          · intro cs
            exact ih _
      · exact infraExt_raise "ValueError"

theorem mkdirCmd_mkdir (t : String) : isPrefixStr "mkdir " ("mkdir -m=775 -p " ++ t) = true := by
  apply isPrefixStr_extend
  decide

theorem infraExt_moduleInit (env : Env) : InfraExt (moduleInit env) := by
  apply infraExt_bind
  · exact infraExt_exec env _ none (Or.inr (mkdirCmd_mkdir (hookBuildDir env)))
  · intro x
    exact infraExt_pure ()

theorem fromReaderLoop_err (env : Env) (lines : List String)
    (hbad : ∃ l ∈ lines, (pySplitWs l).length ≠ 3) :
    ∀ (acc : List Ref) (s : St), ∃ e s2, fromReaderLoop env lines acc s = (Except.error e, s2) := by
  induction lines with
  | nil =>
      obtain ⟨l, hl, _⟩ := hbad
      cases hl
  | cons line rest ih =>
      intro acc s
      show ∃ e s2, fromReaderLoop env (line :: rest) acc s = (Except.error e, s2)
      unfold fromReaderLoop
      rcases hsp : pySplitWs line with _ | ⟨x1, _ | ⟨x2, _ | ⟨x3, _ | more⟩⟩⟩
      · exact ⟨PyExit.exc "ValueError", s, rfl⟩
      · exact ⟨PyExit.exc "ValueError", s, rfl⟩
      · exact ⟨PyExit.exc "ValueError", s, rfl⟩
      · -- exactly three fields: the malformed line is further down
        have hrest : ∃ l ∈ rest, (pySplitWs l).length ≠ 3 := by
          obtain ⟨l, hl, hlen⟩ := hbad
          rcases List.mem_cons.mp hl with rfl | hmem
          · rw [hsp] at hlen
            simp at hlen
          · exact ⟨l, hmem, hlen⟩
        show ∃ e s2, (Commit.hashes_between env x1 x2 >>= fun hs =>
          fromHashes env hs >>= fun cs =>
            fromReaderLoop env rest (acc ++ [Ref.mk x3 cs])) s = (Except.error e, s2)
        rcases hhb : Commit.hashes_between env x1 x2 s with ⟨hres, s2⟩
        rcases hres with e | hs
        · exact ⟨e, s2, M.bind_err _ hhb⟩
        · rw [M.bind_ok _ hhb]
          rcases hfh : fromHashes env hs s2 with ⟨fres, s3⟩
          rcases fres with e | cs
          · exact ⟨e, s3, M.bind_err _ hfh⟩
          · rw [M.bind_ok _ hfh]
            exact ih hrest _ s3
      · exact ⟨PyExit.exc "ValueError", s, rfl⟩

theorem check_not_infra (e : Ev) (h : infraEv e = true) : isCheckCmdEv e = false := by
  cases e with
  | print m => rfl
  | run cmd cwd =>
      have h2 : isPrefixStr "set -eufo pipefail;git " cmd = true ∨
          isPrefixStr "set -eufo pipefail;mkdir " cmd = true := by
        simpa [infraEv] using h
      rcases h2 with hg | hm
      · have hc : cmd.data[19]? = some 'g' :=
          getElem_of_isPrefixStr "set -eufo pipefail;git " cmd 19 'g' hg (by decide)
        show (isPrefixStr "set -eufo pipefail;rustfmt " cmd
          || isPrefixStr "set -eufo pipefail;unset " cmd) = false
        rw [not_isPrefixStr_of_getElem "set -eufo pipefail;rustfmt " cmd 19 'r' 'g'
              (by decide) hc (by decide),
            not_isPrefixStr_of_getElem "set -eufo pipefail;unset " cmd 19 'u' 'g'
              (by decide) hc (by decide)]
        rfl
      · have hc : cmd.data[19]? = some 'm' :=
          getElem_of_isPrefixStr "set -eufo pipefail;mkdir " cmd 19 'm' hm (by decide)
        show (isPrefixStr "set -eufo pipefail;rustfmt " cmd
          || isPrefixStr "set -eufo pipefail;unset " cmd) = false
        rw [not_isPrefixStr_of_getElem "set -eufo pipefail;rustfmt " cmd 19 'r' 'm'
              (by decide) hc (by decide),
            not_isPrefixStr_of_getElem "set -eufo pipefail;unset " cmd 19 'u' 'm'
              (by decide) hc (by decide)]
        rfl

theorem tellPrint_apply (msg : String) (s : St) :
    tellPrint msg s =
      (Except.ok (), ⟨s.nextOid, s.nextTmp, s.cbd, s.trace ++ [Ev.print msg]⟩) := by
  obtain ⟨a, b, c, t⟩ := s
  rfl

/-- Claim C6: an input line that does not split into exactly three
whitespace-separated fields makes the whole run abort (an error result —
the `ValueError` of the destructuring, or an earlier infrastructure bail),
and the trace holds only prints and git/mkdir infrastructure commands: no
check tool (rustfmt or cargo) is ever invoked and no ref survives to the
check loop. -/
theorem claim_C6 (env : Env)
    (hbad : ∃ l ∈ env.stdin, (pySplitWs l).length ≠ 3) :
    (∃ e, (initAndHook env St.init).fst = Except.error e) ∧
    (∀ ev ∈ (initAndHook env St.init).snd.trace, infraEv ev = true) ∧
    (∀ ev ∈ (initAndHook env St.init).snd.trace, isCheckCmdEv ev = false) := by
  have hMI : InfraExt (moduleInit env) := infraExt_moduleInit env
  rcases hmi : moduleInit env St.init with ⟨resm, s1⟩
  have hs1 : ∀ ev ∈ s1.trace, infraEv ev = true := by
    intro ev hev
    have hthis := hMI St.init ev
    rw [hmi] at hthis
    rcases hthis hev with h1 | h2
    · simp [St.init] at h1
    · exact h2
  rcases resm with em | u
  · have heq : initAndHook env St.init = (Except.error em, s1) := by
      unfold initAndHook
      exact M.bind_err _ hmi
    rw [heq]
    exact ⟨⟨em, rfl⟩, hs1, fun ev hev => check_not_infra ev (hs1 ev hev)⟩
  · have htp := tellPrint_apply "Entering pre-receive hook" s1
    have hs2tr : ∀ ev ∈ (s1.trace ++ [Ev.print "Entering pre-receive hook"]), infraEv ev = true := by
      intro ev hev
      rcases List.mem_append.mp hev with h1 | h2
      · exact hs1 ev h1
      · rw [List.mem_singleton.mp h2]
        rfl
    obtain ⟨e, s3, hfr⟩ := fromReaderLoop_err env env.stdin hbad []
      ⟨s1.nextOid, s1.nextTmp, s1.cbd, s1.trace ++ [Ev.print "Entering pre-receive hook"]⟩
    have hs3tr : ∀ ev ∈ s3.trace, infraEv ev = true := by
      intro ev hev
      have hthis := infraExt_fromReaderLoop env env.stdin []
        ⟨s1.nextOid, s1.nextTmp, s1.cbd, s1.trace ++ [Ev.print "Entering pre-receive hook"]⟩ ev
      rw [hfr] at hthis
      rcases hthis hev with h1 | h2
      · exact hs2tr ev h1
      · exact h2
    have hrw : rust_hook env s1 = (Except.error e, s3) := by
      unfold rust_hook PreReceiveContext.from_reader
      rw [M.bind_ok _ htp]
      exact M.bind_err _ hfr
    have heq : initAndHook env St.init = (Except.error e, s3) := by
      unfold initAndHook
      rw [M.bind_ok _ hmi]
      exact hrw
    rw [heq]
    exact ⟨⟨e, rfl⟩, hs3tr, fun ev hev => check_not_infra ev (hs3tr ev hev)⟩

/-- Claim C6 witness: a push whose single input line has one field. -/
theorem claim_C6_witness :
    (∃ l ∈ envC6.stdin, (pySplitWs l).length ≠ 3) ∧
    ((∃ e, (initAndHook envC6 St.init).fst = Except.error e) ∧
     (∀ ev ∈ (initAndHook envC6 St.init).snd.trace, infraEv ev = true) ∧
     (∀ ev ∈ (initAndHook envC6 St.init).snd.trace, isCheckCmdEv ev = false)) :=
  ⟨by decide, claim_C6 envC6 (by decide)⟩

/-! ## Claims C1 and C8: whole-program runs -/

/-- Claim C1 (code bug): a push of one commit to master where every check
passes — the format file-set is empty (vacuous pass), the test run exits 0,
the hook prints its success banner and no KO — still terminates the process
with exit status 1, because `main` ends in `exit(1)` ("prevent push for
testing purposes, should be removed to actually push").  The claimed zero
exit status never happens. -/
theorem claim_C1 :
    (program envC1).fst = Except.error (PyExit.exit 1) ∧
    Ev.print "Pre-receive hook success" ∈ (program envC1).snd.trace ∧
    Ev.print "        KO" ∉ (program envC1).snd.trace := by
  decide

/-- Claim C8 (code bug): a push updating master with an empty revision
range (no new commits — a valid case per the spec) crashes with an
unhandled `IndexError`: the check label `ref.commits[-1].display()` indexes
the empty commit list before any check is evaluated (the hook printed the
format-section header but neither OK nor KO). -/
theorem claim_C8 :
    (program envC8).fst = Except.error (PyExit.exc "IndexError") ∧
    Ev.print "    rustfmt --check" ∈ (program envC8).snd.trace ∧
    Ev.print "        OK" ∉ (program envC8).snd.trace ∧
    Ev.print "        KO" ∉ (program envC8).snd.trace := by
  decide

/-! ## Claim C2: format check first, tests oldest-first, halt at first failure -/

theorem str_append_nil (s : String) : s ++ "" = s := by simp

theorem ne_cargoFull (env : Env) (tail : String) (c0 : Char)
    (h0 : tail.data[0]? = some c0) (hne : c0 ≠ 'u') :
    ("set -eufo pipefail;" ++ tail) ≠ cargoFull env := by
  apply str_ne_of_data_getElem _ _ 19 c0 'u'
  · rw [data19]
    exact h0
  · show (cargoFull env).data[19]? = some 'u'
    unfold cargoFull
    rw [data19]
    unfold cargoTestCmd
    exact getElem0_append _ _ 'u' (by decide)
  · exact hne

theorem cargoEvs_append (env : Env) (t1 t2 : List Ev) :
    cargoEvs env (t1 ++ t2) = cargoEvs env t1 ++ cargoEvs env t2 := by
  simp [cargoEvs]

theorem cargoEvs_print (env : Env) (m : String) : cargoEvs env [Ev.print m] = [] := rfl

theorem cargoEvs_run_ne (env : Env) (cmd : String) (cwd : Option String)
    (h : cmd ≠ cargoFull env) : cargoEvs env [Ev.run cmd cwd] = [] := by
  simp [cargoEvs, h]

theorem cargoEvs_run_eq (env : Env) (cwd : Option String) :
    cargoEvs env [Ev.run (cargoFull env) cwd] = [Ev.run (cargoFull env) cwd] := by
  simp [cargoEvs]

theorem cargoEvs_touchEvs (env : Env) (c : Commit) (d : String) :
    cargoEvs env (touchEvs c d) = [] := by
  unfold touchEvs
  split
  · rfl
  · exact cargoEvs_run_ne env _ _
      (ne_cargoFull env (touchCmd c) 't'
        (getElem0_append "touch " (joinWith " " (c.updated_files ++ c.new_files)) 't' (by decide))
        (by decide))

theorem non_bail_exec_apply (env : Env) (cmd : String) (cwd : Option String) (s : St) :
    Utils.non_bail_exec env cmd cwd s =
      (Except.ok (env.run ("set -eufo pipefail;" ++ cmd) cwd),
       ⟨s.nextOid, s.nextTmp, s.cbd, s.trace ++ [Ev.run ("set -eufo pipefail;" ++ cmd) cwd]⟩) := by
  obtain ⟨a, b, c, t⟩ := s
  rfl

theorem infra_git_full (cmd : String) (h : isPrefixStr "git " cmd = true) :
    isPrefixStr "set -eufo pipefail;git " ("set -eufo pipefail;" ++ cmd) = true := by
  rw [show ("set -eufo pipefail;git " : String) = "set -eufo pipefail;" ++ "git " from by decide]
  exact isPrefixStr_append_left _ _ _ h

theorem infra_mkdir_full (cmd : String) (h : isPrefixStr "mkdir " cmd = true) :
    isPrefixStr "set -eufo pipefail;mkdir " ("set -eufo pipefail;" ++ cmd) = true := by
  rw [show ("set -eufo pipefail;mkdir " : String) = "set -eufo pipefail;" ++ "mkdir " from by decide]
  exact isPrefixStr_append_left _ _ _ h

theorem archiveCmd_git (tail : String) :
    isPrefixStr "git " ("git archive " ++ tail) = true := by
  apply isPrefixStr_extend
  decide

/-- Evaluation of `Commit.code_basedir` on an unmaterialized commit whose
archive extraction succeeds. -/
theorem code_basedir_fresh (env : Env) (c : Commit) (s : St)
    (hnone : lookupCbd s.cbd c.oid = none)
    (hrc : (env.run ("set -eufo pipefail;" ++ ("git archive " ++ c.hash ++ " | tar -x -C "
      ++ (hookBuildDir env ++ "/" ++ c.hash ++ env.freshSuffix s.nextTmp))) none).returncode = 0) :
    Commit.code_basedir env c s =
      (Except.ok (hookBuildDir env ++ "/" ++ c.hash ++ env.freshSuffix s.nextTmp),
       ⟨s.nextOid, s.nextTmp + 1,
        (c.oid, hookBuildDir env ++ "/" ++ c.hash ++ env.freshSuffix s.nextTmp) :: s.cbd,
        (s.trace ++ [Ev.run ("set -eufo pipefail;" ++ ("git archive " ++ c.hash ++ " | tar -x -C "
          ++ (hookBuildDir env ++ "/" ++ c.hash ++ env.freshSuffix s.nextTmp))) none])
          ++ touchEvs c (hookBuildDir env ++ "/" ++ c.hash ++ env.freshSuffix s.nextTmp)⟩) := by
  obtain ⟨a, b, cc, t⟩ := s
  unfold Commit.code_basedir
  rw [M.bind_ok _ (rfl : getSt ⟨a, b, cc, t⟩ = (Except.ok ⟨a, b, cc, t⟩, ⟨a, b, cc, t⟩))]
  simp only [hnone]
  rw [M.bind_ok _ (rfl : freshTmpName env c.hash ⟨a, b, cc, t⟩ =
    (Except.ok (hookBuildDir env ++ "/" ++ c.hash ++ env.freshSuffix b), ⟨a, b + 1, cc, t⟩))]
  rw [M.bind_ok _ (Utils.exec_ok env _ none _ hrc)]
  rw [M.bind_ok _ (rfl : setCbd c.oid (hookBuildDir env ++ "/" ++ c.hash ++ env.freshSuffix b)
    ⟨a, b + 1, cc, t ++ [Ev.run ("set -eufo pipefail;" ++ ("git archive " ++ c.hash ++ " | tar -x -C "
      ++ (hookBuildDir env ++ "/" ++ c.hash ++ env.freshSuffix b))) none]⟩ =
    (Except.ok (), ⟨a, b + 1, (c.oid, hookBuildDir env ++ "/" ++ c.hash ++ env.freshSuffix b) :: cc,
      t ++ [Ev.run ("set -eufo pipefail;" ++ ("git archive " ++ c.hash ++ " | tar -x -C "
      ++ (hookBuildDir env ++ "/" ++ c.hash ++ env.freshSuffix b))) none]⟩))]
  rw [M.bind_ok _ (touchFiles_apply env c _ _)]
  rfl

/-- Behavior of `Commit.code_basedir` under healthy infrastructure, a constant-empty
temporary-name suffix, and a consistent materialization state: it returns
the commit's canonical directory, runs no cargo command, and leaves other
commits' materialization state untouched. -/
theorem code_basedir_spec (env : Env) (c : Commit) (s : St)
    (hinfra : infraOk env) (hsuf : suffixConst env) (hcbd : cbdOk env s c) :
    ∃ s2, Commit.code_basedir env c s = (Except.ok (dirOf env c), s2) ∧
      cargoEvs env s2.trace = cargoEvs env s.trace ∧
      lookupCbd s2.cbd c.oid = some (dirOf env c) ∧
      (∀ k, k ≠ c.oid → lookupCbd s2.cbd k = lookupCbd s.cbd k) := by
  rcases hcbd with hnone | hsome
  · have hd : hookBuildDir env ++ "/" ++ c.hash ++ env.freshSuffix s.nextTmp = dirOf env c := by
      rw [hsuf s.nextTmp, str_append_nil]
      rfl
    have hrc : (env.run ("set -eufo pipefail;" ++ ("git archive " ++ c.hash ++ " | tar -x -C "
        ++ (hookBuildDir env ++ "/" ++ c.hash ++ env.freshSuffix s.nextTmp))) none).returncode = 0 :=
      hinfra _ none (Or.inl (infra_git_full _ (archiveCmd_git _)))
    have heq := code_basedir_fresh env c s hnone hrc
    rw [hd] at heq
    refine ⟨_, heq, ?_, ?_, ?_⟩
    · show cargoEvs env ((s.trace ++ [Ev.run _ none]) ++ touchEvs c (dirOf env c)) = cargoEvs env s.trace
      rw [cargoEvs_append, cargoEvs_append, cargoEvs_touchEvs]
      have inner1 : ("git archive " ++ c.hash).data[0]? = some 'g' :=
        getElem0_append "git archive " c.hash 'g' (by decide)
      have inner2 : ("git archive " ++ c.hash ++ " | tar -x -C ").data[0]? = some 'g' :=
        getElem0_append _ _ 'g' inner1
      have inner3 : ("git archive " ++ c.hash ++ " | tar -x -C " ++ dirOf env c).data[0]? = some 'g' :=
        getElem0_append _ _ 'g' inner2
      rw [cargoEvs_run_ne env _ none (ne_cargoFull env _ 'g' inner3 (by decide))]
      simp
    · show lookupCbd ((c.oid, dirOf env c) :: s.cbd) c.oid = some (dirOf env c)
      simp [lookupCbd]
    · intro k hk
      show lookupCbd ((c.oid, dirOf env c) :: s.cbd) k = lookupCbd s.cbd k
      rw [show lookupCbd ((c.oid, dirOf env c) :: s.cbd) k
        = if c.oid = k then some (dirOf env c) else lookupCbd s.cbd k from rfl]
      rw [if_neg (fun hh => hk hh.symm)]
  · refine ⟨_, code_basedir_memo env c s (dirOf env c) hsome, ?_, hsome, fun k _ => rfl⟩
    show cargoEvs env (s.trace ++ touchEvs c (dirOf env c)) = cargoEvs env s.trace
    rw [cargoEvs_append, cargoEvs_touchEvs]
    simp

/-- Behavior of `run_tests` under healthy infrastructure: returns the cargo verdict for
the commit, appends exactly one cargo invocation (in the commit's canonical
directory) to the cargo events, and preserves other commits'
materialization state. -/
theorem run_tests_spec (env : Env) (c : Commit) (s : St)
    (hinfra : infraOk env) (hsuf : suffixConst env) (hcbd : cbdOk env s c) :
    ∃ s2, run_tests env c s = (Except.ok (testPasses env c), s2) ∧
      cargoEvs env s2.trace =
        cargoEvs env s.trace ++ [Ev.run (cargoFull env) (some (dirOf env c))] ∧
      lookupCbd s2.cbd c.oid = some (dirOf env c) ∧
      (∀ k, k ≠ c.oid → lookupCbd s2.cbd k = lookupCbd s.cbd k) := by
  obtain ⟨s1, hcb, hcb_ev, hcb_lk, hcb_pr⟩ := code_basedir_spec env c s hinfra hsuf hcbd
  have hmk : (env.run ("set -eufo pipefail;" ++ ("mkdir -m=775 -p " ++ cacheDir env)) none).returncode = 0 :=
    hinfra _ none (Or.inr (infra_mkdir_full _ (mkdirCmd_mkdir _)))
  have hcf : ("set -eufo pipefail;" ++ cargoTestCmd env) = cargoFull env := rfl
  by_cases hrc : (env.run (cargoFull env) (some (dirOf env c))).returncode = 0
  · have heq : run_tests env c s = (Except.ok (testPasses env c),
        ⟨s1.nextOid, s1.nextTmp, s1.cbd,
         (s1.trace ++ [Ev.run ("set -eufo pipefail;" ++ ("mkdir -m=775 -p " ++ cacheDir env)) none])
           ++ [Ev.run (cargoFull env) (some (dirOf env c))]⟩) := by
      unfold run_tests
      rw [M.bind_ok _ hcb, M.bind_ok _ (Utils.exec_ok env _ none s1 hmk),
        M.bind_ok _ (non_bail_exec_apply env (cargoTestCmd env) (some (dirOf env c)) _)]
      rw [hcf]
      rw [if_neg (not_not_intro hrc)]
      rw [M.bind_ok _ (M.pure_apply () _)]
      rfl
    refine ⟨_, heq, ?_, hcb_lk, hcb_pr⟩
    rw [cargoEvs_append, cargoEvs_append, hcb_ev,
      cargoEvs_run_ne env _ none (ne_cargoFull env _ 'm'
        (getElem0_append "mkdir -m=775 -p " (cacheDir env) 'm' (by decide)) (by decide)),
      cargoEvs_run_eq env (some (dirOf env c))]
    simp
  · have heq : run_tests env c s = (Except.ok (testPasses env c),
        ⟨s1.nextOid, s1.nextTmp, s1.cbd,
         ((s1.trace ++ [Ev.run ("set -eufo pipefail;" ++ ("mkdir -m=775 -p " ++ cacheDir env)) none])
           ++ [Ev.run (cargoFull env) (some (dirOf env c))])
           ++ [Ev.print ("\nerror code [" ++ toString (env.run (cargoFull env) (some (dirOf env c))).returncode
                ++ "] `" ++ cargoTestCmd env ++ "`\n"
                ++ (env.run (cargoFull env) (some (dirOf env c))).stderr ++ "\n"
                ++ (env.run (cargoFull env) (some (dirOf env c))).stdout)]⟩) := by
      unfold run_tests
      rw [M.bind_ok _ hcb, M.bind_ok _ (Utils.exec_ok env _ none s1 hmk),
        M.bind_ok _ (non_bail_exec_apply env (cargoTestCmd env) (some (dirOf env c)) _)]
      rw [hcf]
      rw [if_pos hrc]
      rw [M.bind_ok _ (tellPrint_apply _ _)]
      rfl
    refine ⟨_, heq, ?_, hcb_lk, hcb_pr⟩
    rw [cargoEvs_append, cargoEvs_append, cargoEvs_append, hcb_ev,
      cargoEvs_run_ne env _ none (ne_cargoFull env _ 'm'
        (getElem0_append "mkdir -m=775 -p " (cacheDir env) 'm' (by decide)) (by decide)),
      cargoEvs_run_eq env (some (dirOf env c)), cargoEvs_print]
    simp

/-- The wrapper `Utils.check` is its predicate bracketed by the description print and
the OK/KO verdict print. -/
theorem check_spec (pred : M Bool) (desc : String) (s s2 : St) (b : Bool)
    (h : pred ⟨s.nextOid, s.nextTmp, s.cbd, s.trace ++ [Ev.print ("      " ++ desc)]⟩
      = (Except.ok b, s2)) :
    Utils.check pred desc s =
      (Except.ok b, ⟨s2.nextOid, s2.nextTmp, s2.cbd,
        s2.trace ++ [Ev.print (if b = true then "        OK" else "        KO")]⟩) := by
  unfold Utils.check
  rw [M.bind_ok _ (tellPrint_apply ("      " ++ desc) s), M.bind_ok _ h]
  cases b
  · rw [if_neg (by simp)]
    rw [M.bind_ok _ (tellPrint_apply "        KO" s2)]
    simp [M.pure]
  · rw [if_pos rfl]
    rw [M.bind_ok _ (tellPrint_apply "        OK" s2)]
    simp [M.pure]

theorem expectedTested_cons_pos (env : Env) (c : Commit) (rest : List Commit)
    (h : testPasses env c = true) :
    expectedTested env (c :: rest) = c :: expectedTested env rest := by
  unfold expectedTested
  rw [List.takeWhile_cons_of_pos h, List.dropWhile_cons_of_pos h]
  rfl

theorem expectedTested_cons_neg (env : Env) (c : Commit) (rest : List Commit)
    (h : testPasses env c = false) :
    expectedTested env (c :: rest) = [c] := by
  unfold expectedTested
  rw [List.takeWhile_cons_of_neg (by simp [h]), List.dropWhile_cons_of_neg (by simp [h])]
  rfl

theorem bail_apply (msg : String) (code : Int) (s : St) :
    (Utils.bail msg code : M Unit) s =
      (Except.error (PyExit.exit code),
       ⟨s.nextOid, s.nextTmp, s.cbd, s.trace ++ [Ev.print msg]⟩) := by
  obtain ⟨a, b, cc, t⟩ := s
  rfl

/-- The per-commit test loop under healthy infrastructure: the result is
success iff every commit's test passes, and the cargo invocations appended
are exactly the passing prefix plus the first failing commit, in commit
order. -/
theorem testCommitsLoop_spec (env : Env) (cs : List Commit) (s : St)
    (hinfra : infraOk env) (hsuf : suffixConst env)
    (hcbd : ∀ c ∈ cs, cbdOk env s c)
    (hnodup : (cs.map Commit.oid).Nodup) :
    ∃ s2, testCommitsLoop env cs s =
      ((if cs.all (testPasses env) then Except.ok () else Except.error (PyExit.exit 1)), s2) ∧
      cargoEvs env s2.trace = cargoEvs env s.trace
        ++ (expectedTested env cs).map (fun c => Ev.run (cargoFull env) (some (dirOf env c))) := by
  induction cs generalizing s with
  | nil =>
      refine ⟨s, ?_, by simp [expectedTested]⟩
      simp only [List.all_nil, if_true]
      rfl
  | cons c rest ih =>
      have hcbdA : cbdOk env
          ⟨s.nextOid, s.nextTmp, s.cbd, s.trace ++ [Ev.print ("      " ++ Commit.display c)]⟩ c :=
        hcbd c (List.mem_cons_self c rest)
      obtain ⟨sB, hrt, hrt_ev, hrt_lk, hrt_pr⟩ := run_tests_spec env c
        ⟨s.nextOid, s.nextTmp, s.cbd, s.trace ++ [Ev.print ("      " ++ Commit.display c)]⟩
        hinfra hsuf hcbdA
      have hch := check_spec (run_tests env c) (Commit.display c) s sB (testPasses env c) hrt
      have hnd : (∀ x ∈ rest, ¬x.oid = c.oid) ∧ (List.map Commit.oid rest).Nodup := by
        simpa using hnodup
      have hcbdC : ∀ c2 ∈ rest, cbdOk env
          ⟨sB.nextOid, sB.nextTmp, sB.cbd,
           sB.trace ++ [Ev.print (if testPasses env c = true then "        OK" else "        KO")]⟩ c2 := by
        intro c2 hc2
        show lookupCbd sB.cbd c2.oid = none ∨ lookupCbd sB.cbd c2.oid = some (dirOf env c2)
        rw [hrt_pr c2.oid (hnd.1 c2 hc2)]
        exact hcbd c2 (List.mem_cons_of_mem c hc2)
      have hcargoC : cargoEvs env (sB.trace
          ++ [Ev.print (if testPasses env c = true then "        OK" else "        KO")])
          = cargoEvs env s.trace ++ [Ev.run (cargoFull env) (some (dirOf env c))] := by
        rw [cargoEvs_append, cargoEvs_print, hrt_ev]
        show cargoEvs env (s.trace ++ [Ev.print ("      " ++ Commit.display c)]) ++ _ ++ _ = _
        rw [cargoEvs_append, cargoEvs_print]
        simp
      show ∃ s2, (Utils.check (run_tests env c) (Commit.display c) >>= fun ok =>
        if ok then testCommitsLoop env rest
        else Utils.bail "Push denied: please fix KO" 1) s = _ ∧ _
      rw [M.bind_ok _ hch]
      by_cases ht : testPasses env c = true
      · rw [if_pos ht]
        obtain ⟨s3, hloop, hloop_ev⟩ := ih _ hcbdC hnd.2
        refine ⟨s3, ?_, ?_⟩
        · rw [hloop]
          rw [show (c :: rest).all (testPasses env) = rest.all (testPasses env) from by
            rw [List.all_cons, ht, Bool.true_and]]
        · rw [hloop_ev, hcargoC, expectedTested_cons_pos env c rest ht]
          simp
      · have ht2 : testPasses env c = false := by
          rcases hb : testPasses env c with _ | _
          · rfl
          · exact absurd hb ht
        rw [if_neg ht]
        refine ⟨⟨sB.nextOid, sB.nextTmp, sB.cbd,
          (sB.trace ++ [Ev.print (if testPasses env c = true then "        OK" else "        KO")])
            ++ [Ev.print "Push denied: please fix KO"]⟩, ?_, ?_⟩
        · rw [bail_apply, List.all_cons, ht2]
          rw [if_neg (by simp)]
          rfl
        · show cargoEvs env (_ ++ [Ev.print "Push denied: please fix KO"]) = _
          rw [cargoEvs_append, cargoEvs_print, hcargoC, expectedTested_cons_neg env c rest ht2]
          simp

theorem getLast?_mem {α : Type} (l : List α) (a : α) (h : l.getLast? = some a) : a ∈ l := by
  induction l with
  | nil => exact absurd h (by simp)
  | cons x xs ih =>
      cases xs with
      | nil =>
          simp at h
          simp [h]
      | cons y ys =>
          rw [List.getLast?_cons_cons] at h
          exact List.mem_cons_of_mem x (ih h)

theorem getLast?_of_ne_nil {α : Type} (l : List α) (h : l ≠ []) : ∃ a, l.getLast? = some a :=
  ⟨l.getLast h, List.getLast?_eq_getLast l h⟩

/-- An empty filtered file set short-circuits the format check. -/
theorem check_fmt_empty (env : Env) (ref : Ref) (s : St)
    (h : files_to_fmt ref.commits = []) :
    check_fmt_on_lst_commit env ref s = (Except.ok true, s) := by
  unfold check_fmt_on_lst_commit
  rw [h]
  rfl

/-- Behavior of `check_fmt_on_lst_commit` under healthy infrastructure: returns the
`fmtPasses` verdict, runs no cargo command, and changes the materialization
state only at the last commit (to its canonical directory). -/
theorem check_fmt_spec (env : Env) (ref : Ref) (lastC : Commit) (s : St)
    (hinfra : infraOk env) (hsuf : suffixConst env)
    (hlast : ref.commits.getLast? = some lastC)
    (hcbd : cbdOk env s lastC) :
    ∃ s2, check_fmt_on_lst_commit env ref s = (Except.ok (fmtPasses env ref), s2) ∧
      cargoEvs env s2.trace = cargoEvs env s.trace ∧
      (∀ k, lookupCbd s2.cbd k = lookupCbd s.cbd k ∨
        (k = lastC.oid ∧ lookupCbd s2.cbd k = some (dirOf env lastC))) := by
  by_cases hemp : (files_to_fmt ref.commits).isEmpty = true
  · have h0 : files_to_fmt ref.commits = [] := by
      cases hf : files_to_fmt ref.commits with
      | nil => rfl
      | cons x xs => rw [hf] at hemp; exact absurd hemp (by simp)
    have hf : fmtPasses env ref = true := by
      unfold fmtPasses
      rw [if_pos hemp]
    rw [hf]
    exact ⟨s, check_fmt_empty env ref s h0, rfl, fun k => Or.inl rfl⟩
  · have hfp : fmtPasses env ref =
        ((env.run ("set -eufo pipefail;" ++ rustfmtCmd (files_to_fmt ref.commits))
          (some (dirOf env lastC))).returncode == 0) := by
      unfold fmtPasses
      rw [if_neg hemp, hlast]
    obtain ⟨s1, hcb, hcb_ev, hcb_lk, hcb_pr⟩ := code_basedir_spec env lastC s hinfra hsuf hcbd
    have hnerf : ("set -eufo pipefail;" ++ rustfmtCmd (files_to_fmt ref.commits)) ≠ cargoFull env :=
      ne_cargoFull env (rustfmtCmd (files_to_fmt ref.commits)) 'r'
        (getElem0_append "rustfmt --edition 2021 --check "
          (joinWith " " (files_to_fmt ref.commits)) 'r' (by decide)) (by decide)
    by_cases hrc : (env.run ("set -eufo pipefail;" ++ rustfmtCmd (files_to_fmt ref.commits))
        (some (dirOf env lastC))).returncode = 0
    · have heq : check_fmt_on_lst_commit env ref s = (Except.ok (fmtPasses env ref),
          ⟨s1.nextOid, s1.nextTmp, s1.cbd,
           s1.trace ++ [Ev.run ("set -eufo pipefail;" ++ rustfmtCmd (files_to_fmt ref.commits))
             (some (dirOf env lastC))]⟩) := by
        unfold check_fmt_on_lst_commit
        rw [if_neg hemp, hlast]
        show (Commit.code_basedir env lastC >>= fun target_dir =>
          Utils.non_bail_exec env (rustfmtCmd (files_to_fmt ref.commits)) (some target_dir) >>=
            fun result =>
          (if result.returncode ≠ 0 then
            tellPrint ("\nerror code [" ++ toString result.returncode ++ "] `"
              ++ rustfmtCmd (files_to_fmt ref.commits) ++ "`\n" ++ result.stderr ++ "\n"
              ++ result.stdout) >>= fun _ => M.pure (result.returncode == 0)
          else M.pure () >>= fun _ => M.pure (result.returncode == 0))) s = _
        rw [M.bind_ok _ hcb,
          M.bind_ok _ (non_bail_exec_apply env (rustfmtCmd (files_to_fmt ref.commits))
            (some (dirOf env lastC)) s1)]
        rw [if_neg (not_not_intro hrc)]
        rw [M.bind_ok _ (M.pure_apply () _)]
        rw [hfp]
        rfl
      refine ⟨_, heq, ?_, ?_⟩
      · show cargoEvs env (s1.trace ++ [Ev.run _ _]) = _
        rw [cargoEvs_append, hcb_ev, cargoEvs_run_ne env _ _ hnerf]
        simp
      · intro k
        by_cases hk : k = lastC.oid
        · subst hk
          exact Or.inr ⟨rfl, hcb_lk⟩
        · exact Or.inl (hcb_pr k hk)
    · have heq : check_fmt_on_lst_commit env ref s = (Except.ok (fmtPasses env ref),
          ⟨s1.nextOid, s1.nextTmp, s1.cbd,
           (s1.trace ++ [Ev.run ("set -eufo pipefail;" ++ rustfmtCmd (files_to_fmt ref.commits))
             (some (dirOf env lastC))])
           ++ [Ev.print ("\nerror code ["
             ++ toString (env.run ("set -eufo pipefail;" ++ rustfmtCmd (files_to_fmt ref.commits))
                  (some (dirOf env lastC))).returncode
             ++ "] `" ++ rustfmtCmd (files_to_fmt ref.commits) ++ "`\n"
             ++ (env.run ("set -eufo pipefail;" ++ rustfmtCmd (files_to_fmt ref.commits))
                  (some (dirOf env lastC))).stderr ++ "\n"
             ++ (env.run ("set -eufo pipefail;" ++ rustfmtCmd (files_to_fmt ref.commits))
                  (some (dirOf env lastC))).stdout)]⟩) := by
        unfold check_fmt_on_lst_commit
        rw [if_neg hemp, hlast]
        show (Commit.code_basedir env lastC >>= fun target_dir =>
          Utils.non_bail_exec env (rustfmtCmd (files_to_fmt ref.commits)) (some target_dir) >>=
            fun result =>
          (if result.returncode ≠ 0 then
            tellPrint ("\nerror code [" ++ toString result.returncode ++ "] `"
              ++ rustfmtCmd (files_to_fmt ref.commits) ++ "`\n" ++ result.stderr ++ "\n"
              ++ result.stdout) >>= fun _ => M.pure (result.returncode == 0)
          else M.pure () >>= fun _ => M.pure (result.returncode == 0))) s = _
        rw [M.bind_ok _ hcb,
          M.bind_ok _ (non_bail_exec_apply env (rustfmtCmd (files_to_fmt ref.commits))
            (some (dirOf env lastC)) s1)]
        rw [if_pos hrc]
        rw [M.bind_ok _ (tellPrint_apply _ _)]
        rw [hfp]
        rfl
      refine ⟨_, heq, ?_, ?_⟩
      · show cargoEvs env ((s1.trace ++ [Ev.run _ _]) ++ [Ev.print _]) = _
        rw [cargoEvs_append, cargoEvs_append, hcb_ev, cargoEvs_run_ne env _ _ hnerf,
          cargoEvs_print]
        simp
      · intro k
        by_cases hk : k = lastC.oid
        · subst hk
          exact Or.inr ⟨rfl, hcb_lk⟩
        · exact Or.inl (hcb_pr k hk)

/-- Claim C2: on a ref named refs/heads/master the format check runs first —
when it fails the push is denied (exit 1) with no cargo test invocation
recorded at all — and when it passes the per-commit tests run oldest-first,
denying and halting at the first failing commit, so the recorded cargo
invocations are exactly the passing prefix plus the first failure, in
commit order. -/
theorem claim_C2 (env : Env) (ref : Ref) (s : St)
    (hinfra : infraOk env) (hsuf : suffixConst env)
    (hname : ref.name = "refs/heads/master")
    (hne : ref.commits ≠ [])
    (hcbd : ∀ c ∈ ref.commits, cbdOk env s c)
    (hnodup : (ref.commits.map Commit.oid).Nodup) :
    (fmtPasses env ref = false →
      ∃ s2, processRef env ref s = (Except.error (PyExit.exit 1), s2) ∧
        cargoEvs env s2.trace = cargoEvs env s.trace) ∧
    (fmtPasses env ref = true →
      ∃ s2, processRef env ref s =
        ((if ref.commits.all (testPasses env) then Except.ok ()
          else Except.error (PyExit.exit 1)), s2) ∧
        cargoEvs env s2.trace = cargoEvs env s.trace ++
          (expectedTested env ref.commits).map
            (fun c => Ev.run (cargoFull env) (some (dirOf env c)))) := by
  obtain ⟨lastC, hlast⟩ := getLast?_of_ne_nil ref.commits hne
  have hmemL : lastC ∈ ref.commits := getLast?_mem ref.commits lastC hlast
  obtain ⟨sF, hcf, hcf_ev, hcf_lk⟩ := check_fmt_spec env ref lastC
    ⟨s.nextOid, s.nextTmp, s.cbd,
      ((s.trace ++ [Ev.print ("  Running checks on " ++ ref.name)])
        ++ [Ev.print "    rustfmt --check"]) ++ [Ev.print ("      " ++ Commit.display lastC)]⟩
    hinfra hsuf hlast (hcbd lastC hmemL)
  have hch := check_spec (check_fmt_on_lst_commit env ref) (Commit.display lastC)
    ⟨s.nextOid, s.nextTmp, s.cbd,
      (s.trace ++ [Ev.print ("  Running checks on " ++ ref.name)])
        ++ [Ev.print "    rustfmt --check"]⟩
    sF (fmtPasses env ref) hcf
  have hp : processRef env ref s =
      (Utils.check (check_fmt_on_lst_commit env ref) (Commit.display lastC) >>= fun ok =>
       if ok then (tellPrint "    cargo test --release" >>= fun _ =>
         testCommitsLoop env ref.commits)
       else Utils.bail "Push denied: please fix KO" 1)
      ⟨s.nextOid, s.nextTmp, s.cbd,
        (s.trace ++ [Ev.print ("  Running checks on " ++ ref.name)])
          ++ [Ev.print "    rustfmt --check"]⟩ := by
    unfold processRef
    rw [if_pos hname, hlast]
    obtain ⟨a, b, c, t⟩ := s
    rfl
  have hcargoF : cargoEvs env (sF.trace
      ++ [Ev.print (if fmtPasses env ref = true then "        OK" else "        KO")])
      = cargoEvs env s.trace := by
    rw [cargoEvs_append, cargoEvs_print, hcf_ev]
    show cargoEvs env (((s.trace ++ [Ev.print ("  Running checks on " ++ ref.name)])
      ++ [Ev.print "    rustfmt --check"])
      ++ [Ev.print ("      " ++ Commit.display lastC)]) ++ [] = _
    rw [cargoEvs_append, cargoEvs_append, cargoEvs_append,
      cargoEvs_print, cargoEvs_print, cargoEvs_print]
    simp
  constructor
  · intro hf
    refine ⟨⟨sF.nextOid, sF.nextTmp, sF.cbd,
      (sF.trace ++ [Ev.print (if fmtPasses env ref = true then "        OK" else "        KO")])
        ++ [Ev.print "Push denied: please fix KO"]⟩, ?_, ?_⟩
    · rw [hp, M.bind_ok _ hch, if_neg (by simp [hf]), bail_apply]
    · show cargoEvs env ((sF.trace
        ++ [Ev.print (if fmtPasses env ref = true then "        OK" else "        KO")])
        ++ [Ev.print "Push denied: please fix KO"]) = cargoEvs env s.trace
      rw [cargoEvs_append, cargoEvs_print, hcargoF]
      simp
  · intro hf
    have hcbdT : ∀ c2 ∈ ref.commits, cbdOk env
        ⟨sF.nextOid, sF.nextTmp, sF.cbd,
          (sF.trace ++ [Ev.print (if fmtPasses env ref = true then "        OK" else "        KO")])
            ++ [Ev.print "    cargo test --release"]⟩ c2 := by
      intro c2 hc2
      show lookupCbd sF.cbd c2.oid = none ∨ lookupCbd sF.cbd c2.oid = some (dirOf env c2)
      rcases hcf_lk c2.oid with hsame | ⟨hko, hlk⟩
      · rw [hsame]
        exact hcbd c2 hc2
      · right
        have hceq : c2 = lastC := List.inj_on_of_nodup_map hnodup hc2 hmemL hko
        rw [hlk, hceq]
    obtain ⟨s3, hloop, hloop_ev⟩ := testCommitsLoop_spec env ref.commits
      ⟨sF.nextOid, sF.nextTmp, sF.cbd,
        (sF.trace ++ [Ev.print (if fmtPasses env ref = true then "        OK" else "        KO")])
          ++ [Ev.print "    cargo test --release"]⟩ hinfra hsuf hcbdT hnodup
    refine ⟨s3, ?_, ?_⟩
    · rw [hp, M.bind_ok _ hch, if_pos hf,
        M.bind_ok _ (tellPrint_apply "    cargo test --release" _)]
      exact hloop
    · rw [hloop_ev]
      show cargoEvs env ((sF.trace
        ++ [Ev.print (if fmtPasses env ref = true then "        OK" else "        KO")])
        ++ [Ev.print "    cargo test --release"]) ++ _ = _
      rw [cargoEvs_append, cargoEvs_print, hcargoF]
      simp

set_option maxRecDepth 8192 in
theorem claim_C2_witness :
    (fmtPasses envC2 refW = false →
      ∃ s2, processRef envC2 refW St.init = (Except.error (PyExit.exit 1), s2) ∧
        cargoEvs envC2 s2.trace = cargoEvs envC2 St.init.trace) ∧
    (fmtPasses envC2 refW = true →
      ∃ s2, processRef envC2 refW St.init =
        ((if refW.commits.all (testPasses envC2) then Except.ok ()
          else Except.error (PyExit.exit 1)), s2) ∧
        cargoEvs envC2 s2.trace = cargoEvs envC2 St.init.trace ++
          (expectedTested envC2 refW.commits).map
            (fun c => Ev.run (cargoFull envC2) (some (dirOf envC2 c)))) :=
  claim_C2 envC2 refW St.init
    (by
      intro cmd cwd h
      have hne : cmd ≠ cargoLitW := by
        rcases h with h | h
        · exact str_ne_of_data_getElem cmd cargoLitW 19 'g' 'u'
            (getElem_of_isPrefixStr "set -eufo pipefail;git " cmd 19 'g' h (by decide))
            (by decide) (by decide)
        · exact str_ne_of_data_getElem cmd cargoLitW 19 'm' 'u'
            (getElem_of_isPrefixStr "set -eufo pipefail;mkdir " cmd 19 'm' h (by decide))
            (by decide) (by decide)
      show (if cmd = cargoLitW ∧ cwd = some "/g/hooks/pre_receive_hook_tmp_build_dir/h2" then
        (⟨1, "", "test fail"⟩ : CmdResult) else ⟨0, "", ""⟩).returncode = 0
      rw [if_neg (fun hc => hne hc.1)])
    (fun n => rfl) rfl (List.cons_ne_nil cW1 [cW2]) (fun c hc => Or.inl rfl) (by decide)

end Githooks
